import Mathlib

/-!
# Verification of the recipe-ai-video-processor pipeline core

Shallow embedding, in Lean 4, of the pure decision logic of the
recipe-extraction pipeline (`src/pipeline.py`, `src/extractor.py`,
`src/downloader.py`, `src/cookies_manager.py`, `src/analyzer.py`,
`src/llm_config.py`), together with proofs of the specified properties.

Conventions:
* Python non-negative ints are `Nat`; Python `//` on non-negative ints is
  `Nat` division.
* Python binary64 float arithmetic, where it matters (`select_key_frames`),
  is modelled exactly: a positive float is a dyadic rational `m / 2 ^ s`
  with a 53-bit significand, and each operation rounds the exact rational
  result to nearest, ties to even (overflow and subnormals are irrelevant
  at the magnitudes involved and are not modelled).
* Fallible Python code returns `Except PyErr`; a `raise` is `.error`.
* External effects (yt-dlp, gallery-dl, ffmpeg/ffprobe, the R2 cookie
  store) are inputs: a record describes the outcome the environment
  produces, and the embedded function computes what the Python control
  flow does with that outcome.
-/

namespace RecipeProc

/-! ## String helpers shared by the embedded modules

Python's `str.strip()`, `str.lower()`, `in` (substring test) and string
comparison, modelled on `List Char`.  Whitespace is the ASCII whitespace
set `" \t\n\r\x0b\x0c"`, which covers every character the embedded code
paths ever strip; `lower()` is ASCII lowercasing, which covers the URL
and error-message alphabets involved. -/

/-- ASCII whitespace, the set matched by `\s` / stripped by `strip()` on
the inputs at hand. -/
def pyIsSpace (c : Char) : Bool :=
  c = ' ' || c = '\t' || c = '\n' || c = '\r' ||
    c = Char.ofNat 11 || c = Char.ofNat 12

/-- `str.strip()` on a character list: drop whitespace at both ends. -/
def pyStrip (cs : List Char) : List Char :=
  ((cs.dropWhile pyIsSpace).reverse.dropWhile pyIsSpace).reverse

/-- `str.strip()` on a `String`. -/
def pyStripStr (s : String) : String :=
  ⟨pyStrip s.data⟩

/-- ASCII `str.lower()` on a `String`. -/
def pyLower (s : String) : String :=
  ⟨s.data.map Char.toLower⟩

/-- Is `pat` a prefix of `cs`? (Boolean, executable.) -/
def startsWithL : List Char → List Char → Bool
  | [], _ => true
  | _ :: _, [] => false
  | p :: ps, c :: cs => p = c && startsWithL ps cs

/-- Python's `sub in s` substring test on character lists. -/
def containsL (cs pat : List Char) : Bool :=
  match cs with
  | [] => pat.isEmpty
  | _ :: tl => startsWithL pat cs || containsL tl pat

/-- Python's `sub in s` substring test on strings. -/
def pyContains (s sub : String) : Bool :=
  containsL s.data sub.data

/-- Strict lexicographic character-list comparison (Python `<` on `str`,
by code point). -/
def lexLtL : List Char → List Char → Bool
  | [], [] => false
  | [], _ :: _ => true
  | _ :: _, [] => false
  | a :: as, b :: bs => if a < b then true else if b < a then false else lexLtL as bs

/-- Python `<` on strings. -/
def pyStrLt (a b : String) : Bool :=
  lexLtL a.data b.data

/-! ## Python-level error values -/

/-- Python exceptions raised by the embedded code paths. -/
inductive PyErr where
  | valueError (msg : String)
  | zeroDivisionError
  | exception (msg : String)
  deriving DecidableEq

/-- The text of an exception, as `str(e)` would produce (the message). -/
def PyErr.text : PyErr → String
  | .valueError m => m
  | .zeroDivisionError => "division by zero"
  | .exception m => m

/-! ## `src/pipeline.py`: `calculate_optimal_frame_count` -/

/-- Embeds `calculate_optimal_frame_count(duration_seconds, mode)` from
`src/pipeline.py`.  `duration_seconds` is a non-negative int; any mode
string other than `'fast'` / `'accurate'` takes the balanced branch,
exactly as the Python `if/elif/else` does. -/
def calculate_optimal_frame_count (duration_seconds : ℕ) (mode : String) : ℕ :=
  if mode = "fast" then
    if duration_seconds < 300 then 8
    else if duration_seconds < 600 then 10
    else if duration_seconds < 900 then 12
    else 16
  else if mode = "accurate" then
    if duration_seconds < 300 then 15
    else if duration_seconds < 600 then 24
    else if duration_seconds < 900 then 36
    else min 48 (max 36 (duration_seconds / 20))
  else
    if duration_seconds < 300 then 12
    else if duration_seconds < 600 then 18
    else if duration_seconds < 900 then 24
    else min 36 (max 24 (duration_seconds / 30))

/-- The documented table from the spec, written independently of the code:
one step function per mode. -/
def frameCountSpecTable (d : ℕ) (mode : String) : ℕ :=
  if mode = "fast" then
    if d < 300 then 8 else if d < 600 then 10 else if d < 900 then 12 else 16
  else if mode = "accurate" then
    if d < 300 then 15 else if d < 600 then 24 else if d < 900 then 36
    else min 48 (max 36 (d / 20))
  else
    if d < 300 then 12 else if d < 600 then 18 else if d < 900 then 24
    else min 36 (max 24 (d / 30))

/-! ## `src/extractor.py`: `FrameExtractor.select_key_frames`

The Python line `step = len(frame_paths) / count` is true float division
and `int(i * step)` truncates a float product, so the selected indices
are computed in binary64 arithmetic.  A non-negative binary64 value is
modelled as a pair `(m, s)` denoting the dyadic rational `m / 2 ^ s`;
each operation rounds the exact rational result to nearest, ties to
even, at 53 significand bits.  Overflow and subnormals cannot occur at
the list lengths involved and are outside the model. -/

/-- `2 ^ 52`. -/
def two52 : ℕ := 4503599627370496

/-- Smallest `s` (searched upward from `s₀` with bounded fuel, ample for
every finite double) with `2 ^ 52 ≤ a * 2 ^ s / b`. -/
def fl64ScaleLoop : ℕ → ℕ → ℕ → ℕ → ℕ
  | 0, _, _, s => s
  | fuel + 1, a, b, s =>
      if b * two52 ≤ a * 2 ^ s then s else fl64ScaleLoop fuel a b (s + 1)

/-- Correctly rounded (nearest, ties to even) binary64 value of the
non-negative rational `a / b`, as a dyadic pair `(m, s)` with value
`m / 2 ^ s`.  Zero is `(0, 0)`. -/
def fl64OfRat (a b : ℕ) : ℕ × ℕ :=
  if a = 0 then (0, 0)
  else
    let s := fl64ScaleLoop 1200 a b 0
    let n := a * 2 ^ s
    let q := n / b
    let r := n % b
    let m :=
      if 2 * r < b then q
      else if b < 2 * r then q + 1
      else if q % 2 = 0 then q else q + 1
    (m, s)

/-- The index `int(i * step)` computed by `select_key_frames`, where
`step` is the binary64 quotient `n / t` (`n` = frame count, `t` =
target): round `n / t`, multiply by the exactly-representable int `i`
with another rounding, truncate toward zero. -/
def pyFloatIdx (i n t : ℕ) : ℕ :=
  let ds := fl64OfRat n t
  let ps := fl64OfRat (i * ds.1) (2 ^ ds.2)
  ps.1 / 2 ^ ps.2

/-- Embeds `FrameExtractor.select_key_frames` (`src/extractor.py`): keep
the whole list when it does not exceed the target; otherwise pick
`frame_paths[int(i * step)]` for `i in range(count)`.  A zero `count`
reaches `len(frame_paths) / count` and raises `ZeroDivisionError`; an
out-of-range computed index would raise `IndexError` at the Python
subscript. -/
def select_key_frames (frame_paths : List String) (count : ℕ) :
    Except PyErr (List String) :=
  if frame_paths.length ≤ count then .ok frame_paths
  else if count = 0 then .error .zeroDivisionError
  else
    let idxs := (List.range count).map (fun i => pyFloatIdx i frame_paths.length count)
    if idxs.all (fun ix => ix < frame_paths.length) then
      .ok (idxs.map (fun ix => frame_paths.getD ix ""))
    else .error (.exception "IndexError: list index out of range")

/-- A concrete 30-frame list used to refute the claimed index formula. -/
def frames30 : List String :=
  ["f00", "f01", "f02", "f03", "f04", "f05", "f06", "f07", "f08", "f09",
   "f10", "f11", "f12", "f13", "f14", "f15", "f16", "f17", "f18", "f19",
   "f20", "f21", "f22", "f23", "f24", "f25", "f26", "f27", "f28", "f29"]

/-! ## `src/extractor.py`: `_supplement_with_uniform`

A frame on disk is its file name plus the video timestamp it was
extracted at.  Scene-detected frames are named `scene_%04d.jpg` by the
FFmpeg output pattern; the supplementing pass writes `uniform_%04d.jpg`
at timestamps `duration / (needed + 1) * (i + 1)` and the function
returns `sorted(existing + uniform)` — a sort by file name.  All frames
share the same `output_dir` prefix, so relative order under the sort is
decided by the bare file names.  Timestamps are exact rationals here;
the counterexample below uses values that are exactly representable in
binary64, so no float rounding is elided. -/

/-- An extracted frame: file name and the video timestamp (seconds) it
was taken at. -/
structure Frame where
  name : String
  ts : ℚ
  deriving DecidableEq

/-- Insert into a name-sorted list, before the first name that is not
smaller (a stable insertion, like Python's stable `sorted`). -/
def insertByName (f : Frame) : List Frame → List Frame
  | [] => [f]
  | g :: rest =>
      if pyStrLt g.name f.name then g :: insertByName f rest else f :: g :: rest

/-- Python `sorted` keyed on the file name (insertion sort; stable and
order-equivalent to Timsort). -/
def sortByName : List Frame → List Frame
  | [] => []
  | f :: rest => insertByName f (sortByName rest)

/-- `"%04d" % i` for `i < 10000` (frame counts are capped far below). -/
def pad4 (i : ℕ) : String :=
  ⟨[Nat.digitChar (i / 1000 % 10), Nat.digitChar (i / 100 % 10),
    Nat.digitChar (i / 10 % 10), Nat.digitChar (i % 10)]⟩

/-- File name of the `i`-th supplementing uniform frame. -/
def uniformFrameName (i : ℕ) : String :=
  "uniform_" ++ pad4 i ++ ".jpg"

/-- Embeds `FrameExtractor._supplement_with_uniform`
(`src/extractor.py`): compute how many frames are missing, extract that
many uniform frames at equally spaced timestamps, and return the merged
list sorted by file name. -/
def supplement_with_uniform (duration : ℚ) (existing : List Frame)
    (target : ℕ) : List Frame :=
  let needed := target - existing.length
  if needed = 0 then existing
  else
    let step := duration / (needed + 1)
    let uniform := (List.range needed).map
      (fun i => Frame.mk (uniformFrameName i) (step * (i + 1)))
    sortByName (existing ++ uniform)

/-- Is a frame list in non-decreasing timestamp order? -/
def tsSortedB : List Frame → Bool
  | [] => true
  | [_] => true
  | a :: b :: rest => decide (a.ts ≤ b.ts) && tsSortedB (b :: rest)

/-! ## `src/downloader.py` and `src/cookies_manager.py`

The network side (yt-dlp, gallery-dl, the R2 cookie bucket, thumbnail
upload) is an environment: a record says what each external call would
yield, and the embedded functions reproduce the Python control flow on
those outcomes. -/

/-- Does `s` start with `p`? (`str.startswith`). -/
def pyStartsWith (s p : String) : Bool :=
  startsWithL p.data s.data

/-- Stable string insertion (before the first key not smaller). -/
def insertStr (s : String) : List String → List String
  | [] => [s]
  | t :: rest => if pyStrLt t s then t :: insertStr s rest else s :: t :: rest

/-- Python `sorted` on strings. -/
def sortStrings : List String → List String
  | [] => []
  | s :: rest => insertStr s (sortStrings rest)

/-- The `DownloadResult` dataclass (`src/downloader.py`): all three
fields default to `None`. -/
structure DownloadResult where
  video_path : Option String := none
  thumbnail_url : Option String := none
  photo_paths : Option (List String) := none
  deriving DecidableEq

/-- `DownloadResult.is_video`: the video path is set. -/
def DownloadResult.is_video (r : DownloadResult) : Bool :=
  r.video_path.isSome

/-- `DownloadResult.is_photo_carousel`: `photo_paths` is a non-`None`,
non-empty list. -/
def DownloadResult.is_photo_carousel (r : DownloadResult) : Bool :=
  match r.photo_paths with
  | some l => !l.isEmpty
  | none => false

/-- `VideoDownloader._detect_platform`. -/
def detect_platform (url : String) : String :=
  let u := pyLower url
  if pyContains u "youtube.com" || pyContains u "youtu.be" then "youtube"
  else if pyContains u "instagram.com" then "instagram"
  else if pyContains u "facebook.com" || pyContains u "fb.watch" then "facebook"
  else "other"

/-- Outcome the environment produces for one `gallery-dl` run: its exit
code, whether it hit the 60 s timeout, the image files its output
directory then holds (in filesystem discovery order), and what
uploading a photo to R2 returns (`_upload_photo_thumbnail`, which on
failure falls back to the local path — both collapsed into the
function). -/
structure GalleryEnv where
  returncode : ℤ
  timedOut : Bool
  photosFound : List String
  uploadUrl : String → String

/-- Embeds `VideoDownloader._download_photos_with_gallery_dl`: accept
exit codes 0 and 4, require at least one downloaded image, sort the
paths by name, upload the first as thumbnail, and return a photo-only
result. -/
def download_photos_with_gallery_dl (g : GalleryEnv) :
    Except PyErr DownloadResult :=
  if g.timedOut then .error (.valueError "Photo download timed out")
  else if ¬(g.returncode = 0 ∨ g.returncode = 4) then
    .error (.valueError "Failed to download photos")
  else if g.photosFound = [] then
    .error (.valueError "No photos downloaded from TikTok carousel")
  else
    let sortedPhotos := sortStrings g.photosFound
    .ok { video_path := none,
          thumbnail_url := some (g.uploadUrl (sortedPhotos.headD "")),
          photo_paths := some sortedPhotos }

/-- Outcome the environment produces for one `yt_dlp` call inside
`_download_with_ydl`: extraction succeeded (with the metadata the code
reads and whether the output file then exists), returned a falsy info
dict, raised `DownloadError`, or raised some other exception. -/
inductive YdlOutcome where
  | success (videoId ext : String) (fileExists : Bool) (thumb : Option String)
  | noInfo
  | dlError (msg : String)
  | otherError (msg : String)

/-- `PERMANENT_ERRORS` from `_download_with_ydl`. -/
def PERMANENT_ERRORS : List String :=
  ["video unavailable", "private video", "deleted", "copyright",
   "removed", "account terminated", "channel not found", "unsupported url"]

/-- The `needs_auth` keyword list from `VideoDownloader.download`. -/
def AUTH_KEYWORDS : List String :=
  ["sign in", "login required", "bot", "age-restricted",
   "private", "members-only", "not available",
   "cannot parse data", "unable to extract video url"]

/-- Embeds `VideoDownloader._download_with_ydl` (`src/downloader.py`):
on success build the video result; on `DownloadError` inspect the
lowercased text — `"unsupported url"` together with `"photo"` diverts
to gallery-dl before the permanent-error check, otherwise classify and
re-raise as `ValueError`. -/
def download_with_ydl (outputDir filenamePrefix : String)
    (y : YdlOutcome) (g : GalleryEnv) : Except PyErr DownloadResult :=
  match y with
  | .success vid ext fileEx thumb =>
      let path := outputDir ++ "/" ++ filenamePrefix ++ "_" ++ vid ++ "." ++ ext
      if fileEx then
        .ok { video_path := some path, thumbnail_url := thumb, photo_paths := none }
      else .error (.exception ("Download succeeded but file not found: " ++ path))
  | .noInfo => .error (.valueError "Failed to extract video info")
  | .dlError msg =>
      let m := pyLower msg
      if pyContains m "unsupported url" && pyContains m "photo" then
        download_photos_with_gallery_dl g
      else if PERMANENT_ERRORS.any (fun k => pyContains m k) then
        .error (.valueError ("[PERMANENT] Video cannot be downloaded: " ++ msg))
      else if pyContains m "rate-limit" || pyContains m "too many requests" then
        .error (.valueError ("[RETRYABLE] Rate limit: " ++ msg))
      else if pyContains m "login required" || pyContains m "sign in" then
        .error (.valueError ("[RETRYABLE] Login required: " ++ msg))
      else .error (.valueError ("Failed to download video: " ++ msg))
  | .otherError msg => .error (.exception msg)

/-- `CookiesManager.cookies_mapping` keys (`src/cookies_manager.py`). -/
def cookies_mapping : List String := ["instagram", "youtube"]

/-- Embeds `CookiesManager.get_cookies_file`: platforms outside the
mapping yield `None`; otherwise the R2 fetch (environment `fetch`)
yields a temp-file path, or `None` when the fetch fails. -/
def get_cookies_file (platform : String) (fetch : String → Option String) :
    Option String :=
  if platform ∈ cookies_mapping then fetch platform else none

/-- Environment for one `VideoDownloader.download` call: the outcome of
the cookie-less Tier-1 attempt, the R2 cookie fetch, and the outcome of
the with-cookies Tier-2 attempt (each tier with its own gallery-dl
environment, used only on the carousel path). -/
structure DlEnv where
  tier1 : YdlOutcome
  tier1Gallery : GalleryEnv
  fetchCookies : String → Option String
  tier2 : YdlOutcome
  tier2Gallery : GalleryEnv

/-- Observable steps of `download`, to state "no second attempt". -/
inductive DlEvent where
  | ydlAttempt
  | cookieLookup
  deriving DecidableEq

/-- The Tier-2 error message raised when no cookies are available. -/
def authUnavailableMsg (platform : String) : String :=
  "Authentication required but no cookies available for " ++ platform ++
    ". Please configure cookies following YOUTUBE_COOKIES_SETUP.md"

/-- Embeds `VideoDownloader.download` (`src/downloader.py`): validate
the URL, try Tier 1 without cookies; on an error whose lowercased text
matches an auth keyword, look up cookies for the platform and either
fail with the authentication-unavailable `ValueError` or run Tier 2
with cookies.  Alongside the result, the list of performed download
attempts and credential lookups, in order. -/
def download (url : String) (outputDir filenamePrefix : String)
    (env : DlEnv) : Except PyErr DownloadResult × List DlEvent :=
  if pyStartsWith url "http://" || pyStartsWith url "https://" then
    let platform := detect_platform url
    match download_with_ydl outputDir filenamePrefix env.tier1 env.tier1Gallery with
    | .ok r => (.ok r, [.ydlAttempt])
    | .error e =>
        let m := pyLower e.text
        if AUTH_KEYWORDS.any (fun k => pyContains m k) then
          match get_cookies_file platform env.fetchCookies with
          | none =>
              (.error (.valueError (authUnavailableMsg platform)),
                [.ydlAttempt, .cookieLookup])
          | some _ =>
              match download_with_ydl outputDir filenamePrefix env.tier2
                  env.tier2Gallery with
              | .ok r => (.ok r, [.ydlAttempt, .cookieLookup, .ydlAttempt])
              | .error e2 =>
                  (.error (.valueError
                      ("Failed to download even with cookies. Cookies may have expired or video is unavailable. Original error: "
                        ++ e2.text)),
                    [.ydlAttempt, .cookieLookup, .ydlAttempt])
        else (.error e, [.ydlAttempt])
  else (.error (.valueError ("Invalid URL: " ++ url)), [])

/-! ## JSON values

`src/analyzer.py` manipulates decoded JSON: Python dicts, lists, strs,
numbers, bools and `None`.  A number keeps its source token (`num raw`),
which is all the embedded code ever needs; objects keep their key order
(Python dicts preserve insertion order, and `json.loads` keeps the
document order). -/

mutual

/-- A decoded JSON value. -/
inductive JVal where
  | null
  | bool (b : Bool)
  | num (raw : String)
  | str (s : String)
  | arr (xs : JArr)
  | obj (fs : JObj)

/-- A JSON array (spine). -/
inductive JArr where
  | nil
  | cons (hd : JVal) (tl : JArr)

/-- A JSON object: ordered key/value pairs. -/
inductive JObj where
  | nil
  | cons (key : String) (val : JVal) (tl : JObj)

end

/-- Array spine from a list of values. -/
def listToJArr : List JVal → JArr
  | [] => .nil
  | v :: tl => .cons v (listToJArr tl)

/-- Object spine from a list of key/value pairs. -/
def objOf : List (String × JVal) → JObj
  | [] => .nil
  | (k, v) :: tl => .cons k v (objOf tl)

/-! ### JSON printing (models `json.dumps` with the default separators
`", "` and `": "`, one line, escaping `"`, `\` and control characters;
non-ASCII characters are kept literal, an equally valid `json.dumps`
output form that `json.loads` decodes identically). -/

/-- Escape one character of a JSON string literal. -/
def escapeChar (c : Char) : List Char :=
  if c = '"' then ['\\', '"']
  else if c = '\\' then ['\\', '\\']
  else if c.toNat < 32 then
    ['\\', 'u', '0', '0', Nat.digitChar (c.toNat / 16), Nat.digitChar (c.toNat % 16)]
  else [c]

/-- Escape a whole string body. -/
def escapeString (s : List Char) : List Char :=
  s.flatMap escapeChar

/-- Print a JSON string literal, quotes included. -/
def printStr (s : String) : List Char :=
  '"' :: (escapeString s.data ++ ['"'])

/-- Decimal digits of `n`, most significant first (`fuel`-bounded
helper; `fuel > n` always suffices). -/
def natDigitsAux : ℕ → ℕ → List Char
  | 0, _ => []
  | fuel + 1, n =>
      if n < 10 then [Nat.digitChar n]
      else natDigitsAux fuel (n / 10) ++ [Nat.digitChar (n % 10)]

/-- Decimal representation of a natural number. -/
def natToChars (n : ℕ) : List Char :=
  natDigitsAux (n + 1) n

/-- A JSON number holding a natural value. -/
def natNum (n : ℕ) : JVal :=
  .num ⟨natToChars n⟩

mutual

/-- Print a JSON value (`json.dumps` style, single line). -/
def printJVal : JVal → List Char
  | .null => "null".data
  | .bool true => "true".data
  | .bool false => "false".data
  | .num raw => raw.data
  | .str s => printStr s
  | .arr xs => '[' :: (printJArr xs ++ [']'])
  | .obj fs => '{' :: (printJObj fs ++ ['}'])

/-- Print an array spine with `", "` separators. -/
def printJArr : JArr → List Char
  | .nil => []
  | .cons x .nil => printJVal x
  | .cons x (.cons y tl) => printJVal x ++ ',' :: ' ' :: printJArr (.cons y tl)

/-- Print an object spine with `": "` and `", "` separators. -/
def printJObj : JObj → List Char
  | .nil => []
  | .cons k v .nil => printStr k ++ ':' :: ' ' :: printJVal v
  | .cons k v (.cons k2 v2 tl) =>
      printStr k ++ ':' :: ' ' ::
        (printJVal v ++ ',' :: ' ' :: printJObj (.cons k2 v2 tl))

end

/-! ### JSON decoding (models strict `json.loads`: the RFC grammar,
insignificant whitespace `space/tab/newline/return`, escapes including
`\uXXXX`, raw control characters rejected inside strings, full-input
consumption required; surrogate-pair recombination of paired `\uXXXX`
escapes is not modelled — no input in this development contains one). -/

/-- JSON insignificant whitespace. -/
def isJsonWs (c : Char) : Bool :=
  c = ' ' || c = '\t' || c = '\n' || c = '\r'

/-- Skip insignificant whitespace. -/
def skipJsonWs (cs : List Char) : List Char :=
  cs.dropWhile isJsonWs

/-- ASCII decimal digit? -/
def isJsonDigit (c : Char) : Bool :=
  '0' ≤ c && c ≤ '9'

/-- Value of a hexadecimal digit character. -/
def hexVal (c : Char) : Option ℕ :=
  if '0' ≤ c && c ≤ '9' then some (c.toNat - 48)
  else if 'a' ≤ c && c ≤ 'f' then some (c.toNat - 87)
  else if 'A' ≤ c && c ≤ 'F' then some (c.toNat - 55)
  else none

mutual

/-- Parse the body of a string literal after the opening quote; return
the decoded characters and the input after the closing quote. -/
def parseStringBody : List Char → Option (List Char × List Char)
  | [] => none
  | c :: rest =>
      if c = '"' then some ([], rest)
      else if c = '\\' then parseEscapeSeq rest
      else if c.toNat < 32 then none
      else (parseStringBody rest).map (fun p => (c :: p.1, p.2))

/-- Parse what follows a backslash inside a string literal. -/
def parseEscapeSeq : List Char → Option (List Char × List Char)
  | [] => none
  | e :: r2 =>
      if e = '"' then (parseStringBody r2).map (fun p => ('"' :: p.1, p.2))
      else if e = '\\' then (parseStringBody r2).map (fun p => ('\\' :: p.1, p.2))
      else if e = '/' then (parseStringBody r2).map (fun p => ('/' :: p.1, p.2))
      else if e = 'b' then
        (parseStringBody r2).map (fun p => (Char.ofNat 8 :: p.1, p.2))
      else if e = 'f' then
        (parseStringBody r2).map (fun p => (Char.ofNat 12 :: p.1, p.2))
      else if e = 'n' then (parseStringBody r2).map (fun p => ('\n' :: p.1, p.2))
      else if e = 'r' then (parseStringBody r2).map (fun p => ('\r' :: p.1, p.2))
      else if e = 't' then (parseStringBody r2).map (fun p => ('\t' :: p.1, p.2))
      else if e = 'u' then
        match r2 with
        | h1 :: h2 :: h3 :: h4 :: r3 =>
            match hexVal h1, hexVal h2, hexVal h3, hexVal h4 with
            | some a, some b, some c3, some d =>
                (parseStringBody r3).map
                  (fun p =>
                    (Char.ofNat (4096 * a + 256 * b + 16 * c3 + d) :: p.1, p.2))
            | _, _, _, _ => none
        | _ => none
      else none

end

/-- The optional sign of an exponent. -/
def expSign : List Char → List Char × List Char
  | [] => ([], [])
  | d :: rr => if d = '+' ∨ d = '-' then ([d], rr) else ([], d :: rr)

/-- The digits of an exponent after `e`/`E` and the optional sign. -/
def parseExpDigits (acc : List Char) (e : Char) (sg : List Char × List Char) :
    Option (List Char × List Char) :=
  match sg.2 with
  | [] => none
  | d :: rr =>
      if isJsonDigit d then
        some (acc ++ e :: sg.1 ++ d :: rr.takeWhile isJsonDigit,
          rr.dropWhile isJsonDigit)
      else none

/-- Exponent part `([eE][-+]?digits)?` of a number token; `acc` is the
token so far. -/
def parseExpPart (acc : List Char) (rest : List Char) :
    Option (List Char × List Char) :=
  match rest with
  | [] => some (acc, [])
  | c :: r =>
      if c = 'e' ∨ c = 'E' then parseExpDigits acc c (expSign r)
      else some (acc, c :: r)

/-- The digits of a fraction after the decimal point. -/
def parseFracDigits (acc : List Char) : List Char → Option (List Char × List Char)
  | [] => none
  | d :: rr =>
      if isJsonDigit d then
        parseExpPart (acc ++ '.' :: d :: rr.takeWhile isJsonDigit)
          (rr.dropWhile isJsonDigit)
      else none

/-- Fraction part `(.digits)?` of a number token, then the exponent. -/
def parseFracPart (acc : List Char) (rest : List Char) :
    Option (List Char × List Char) :=
  match rest with
  | [] => some (acc, [])
  | c :: r =>
      if c = '.' then parseFracDigits acc r
      else parseExpPart acc (c :: r)

/-- Integer part `0|[1-9]digits` after the optional sign. -/
def parseNumAfterSign (sgn : List Char) : List Char → Option (List Char × List Char)
  | [] => none
  | c :: r =>
      if c = '0' then parseFracPart (sgn ++ ['0']) r
      else if isJsonDigit c then
        parseFracPart (sgn ++ c :: r.takeWhile isJsonDigit)
          (r.dropWhile isJsonDigit)
      else none

/-- Parse a JSON number token (`-?(0|[1-9]digits)(.digits)?([eE]...)?`);
return the token characters and the remaining input. -/
def parseNumberTok : List Char → Option (List Char × List Char)
  | [] => none
  | c :: r =>
      if c = '-' then parseNumAfterSign ['-'] r
      else parseNumAfterSign [] (c :: r)

/-- The tail of the literal `true` after `t`. -/
def parseLitTrue : List Char → Option (JVal × List Char)
  | 'r' :: 'u' :: 'e' :: r => some (.bool true, r)
  | _ => none

/-- The tail of the literal `false` after `f`. -/
def parseLitFalse : List Char → Option (JVal × List Char)
  | 'a' :: 'l' :: 's' :: 'e' :: r => some (.bool false, r)
  | _ => none

/-- The tail of the literal `null` after `n`. -/
def parseLitNull : List Char → Option (JVal × List Char)
  | 'u' :: 'l' :: 'l' :: r => some (.null, r)
  | _ => none

mutual

/-- Parse one JSON value at the head of the input (no leading
whitespace).  `fuel` bounds the recursion; the callers always pass more
fuel than the value's size. -/
def parseValue : ℕ → List Char → Option (JVal × List Char)
  | 0, _ => none
  | fuel + 1, cs =>
      match cs with
      | [] => none
      | c :: rest =>
          if c = '{' then
            match skipJsonWs rest with
            | [] => none
            | c2 :: r2 =>
                if c2 = '}' then some (.obj .nil, r2)
                else (parseMembers fuel (c2 :: r2)).map (fun p => (.obj p.1, p.2))
          else if c = '[' then
            match skipJsonWs rest with
            | [] => none
            | c2 :: r2 =>
                if c2 = ']' then some (.arr .nil, r2)
                else (parseElems fuel (c2 :: r2)).map (fun p => (.arr p.1, p.2))
          else if c = '"' then
            (parseStringBody rest).map (fun p => (.str ⟨p.1⟩, p.2))
          else if c = 't' then parseLitTrue rest
          else if c = 'f' then parseLitFalse rest
          else if c = 'n' then parseLitNull rest
          else (parseNumberTok (c :: rest)).map (fun p => (.num ⟨p.1⟩, p.2))

/-- Parse the elements of a non-empty array, up to and including the
closing bracket. -/
def parseElems : ℕ → List Char → Option (JArr × List Char)
  | 0, _ => none
  | fuel + 1, cs =>
      (parseValue fuel cs).bind (fun vr =>
        match skipJsonWs vr.2 with
        | [] => none
        | c :: r2 =>
            if c = ',' then
              (parseElems fuel (skipJsonWs r2)).map
                (fun p => (.cons vr.1 p.1, p.2))
            else if c = ']' then some (.cons vr.1 .nil, r2)
            else none)

/-- Parse the members of a non-empty object, up to and including the
closing brace. -/
def parseMembers : ℕ → List Char → Option (JObj × List Char)
  | 0, _ => none
  | fuel + 1, cs =>
      match cs with
      | [] => none
      | c0 :: rest =>
          if c0 = '"' then
            (parseStringBody rest).bind (fun kr =>
              match skipJsonWs kr.2 with
              | [] => none
              | c :: r2 =>
                  if c = ':' then
                    (parseValue fuel (skipJsonWs r2)).bind (fun vr =>
                      match skipJsonWs vr.2 with
                      | [] => none
                      | c3 :: r4 =>
                          if c3 = ',' then
                            (parseMembers fuel (skipJsonWs r4)).map
                              (fun p => (.cons ⟨kr.1⟩ vr.1 p.1, p.2))
                          else if c3 = '}' then
                            some (.cons ⟨kr.1⟩ vr.1 .nil, r4)
                          else none)
                  else none)
          else none

end

/-- Embeds `json.loads` over the value model: skip outer whitespace,
parse one value, require the rest to be whitespace only. -/
def jsonDecode (s : String) : Option JVal :=
  match parseValue (s.data.length + 1) (skipJsonWs s.data) with
  | some (v, r) => if skipJsonWs r = [] then some v else none
  | none => none

/-- Python `dict` lookup (`data['k']` / `'k' in data`) on a JSON
object. -/
def JObj.lookup : JObj → String → Option JVal
  | .nil, _ => none
  | .cons k v tl, key => if k = key then some v else tl.lookup key

/-- `isinstance(x, list)`. -/
def JVal.isArr : JVal → Bool
  | .arr _ => true
  | _ => false

/-- Did this call raise? -/
def isErrorB {α : Type} : Except PyErr α → Bool
  | .error _ => true
  | .ok _ => false

/-! ### Markdown fence stripping

`_parse_json_response` runs
`re.sub(r'^```(?:json)?\s*|\s*```$', '', response_text.strip(), flags=re.MULTILINE).strip()`.
The scan below reproduces the regex engine on this pattern: positions
are tried left to right; at each position the first alternative
(anchored at a line start) is tried before the second; `\s*` is greedy,
and since a backtick is not whitespace the greedy run is the only
candidate for the second alternative; `$` matches before a newline or
at the end; matches are at least three characters, so no empty-match
cases arise. -/

/-- Consume a greedy whitespace run, tracking the last consumed
character (for the line-start state after a match). -/
def dropWsLast (last : Char) : List Char → Char × List Char
  | [] => (last, [])
  | c :: cs => if pyIsSpace c then dropWsLast c cs else (last, c :: cs)

/-- The optional `json` tag and trailing whitespace of the first
alternative, after the three backticks. -/
def alt1Json : List Char → Char × List Char
  | j :: s :: o :: n :: r2 =>
      if j = 'j' ∧ s = 's' ∧ o = 'o' ∧ n = 'n' then dropWsLast 'n' r2
      else dropWsLast '`' (j :: s :: o :: n :: r2)
  | rest => dropWsLast '`' rest

/-- First alternative: third backtick. -/
def alt1After2 : List Char → Option (Char × List Char)
  | [] => none
  | c :: rest => if c = '`' then some (alt1Json rest) else none

/-- First alternative: second backtick. -/
def alt1After1 : List Char → Option (Char × List Char)
  | [] => none
  | b :: rest => if b = '`' then alt1After2 rest else none

/-- First alternative, ` ```(?:json)?\s* `, tried only at a line
start: returns the last consumed character and the rest. -/
def alt1Match : List Char → Option (Char × List Char)
  | [] => none
  | a :: rest => if a = '`' then alt1After1 rest else none

/-- Second alternative: the `$` anchor after the backticks. -/
def alt2End : List Char → Option (Char × List Char)
  | [] => some ('`', [])
  | d :: r => if d = '\n' then some ('`', d :: r) else none

/-- Second alternative: third backtick. -/
def alt2After2 : List Char → Option (Char × List Char)
  | [] => none
  | c :: rest => if c = '`' then alt2End rest else none

/-- Second alternative: second backtick. -/
def alt2After1 : List Char → Option (Char × List Char)
  | [] => none
  | b :: rest => if b = '`' then alt2After2 rest else none

/-- Second alternative: first backtick after the whitespace run. -/
def alt2Head : List Char → Option (Char × List Char)
  | [] => none
  | a :: rest => if a = '`' then alt2After1 rest else none

/-- Second alternative, ` \s*```$ `. -/
def alt2Match (cs : List Char) : Option (Char × List Char) :=
  alt2Head (cs.dropWhile pyIsSpace)

/-- Try the pattern at the current position (`atLS`: the position is
the string start or follows a newline of the original text). -/
def matchFence (atLS : Bool) (cs : List Char) : Option (Char × List Char) :=
  match (if atLS then alt1Match cs else none) with
  | some res => some res
  | none => alt2Match cs

/-- The `re.sub(..., '')` scan: at each position, remove a match or
emit the character.  `fuel` bounds the loop; the input length suffices
since every step consumes at least one character. -/
def subFence : ℕ → Bool → List Char → List Char
  | 0, _, cs => cs
  | fuel + 1, atLS, cs =>
      match cs with
      | [] => []
      | c :: rest =>
          match matchFence atLS (c :: rest) with
          | some p => subFence fuel (p.1 == '\n') p.2
          | none => c :: subFence fuel (c == '\n') rest

/-- The fence-stripping step of `_parse_json_response`: outer `strip`,
the regex substitution, inner `strip`. -/
def stripFences (s : String) : String :=
  let t := pyStrip s.data
  ⟨pyStrip (subFence (t.length + 1) true t)⟩

/-- The fixed "creative fallback" recipe object returned by
`_parse_json_response` when strict decoding fails
(`src/analyzer.py`). -/
def fallbackRecipe : JVal :=
  .obj (objOf
    [("name", .str "神秘圖片分析指南"),
     ("description", .str "當 AI 也不知道該說什麼的時候"),
     ("ingredients", .arr (listToJArr
       [.obj (objOf [("name", .str "好奇心"), ("amount", .str "1"),
          ("unit", .str "份")]),
        .obj (objOf [("name", .str "想像力"), ("amount", .str "適量"),
          ("unit", .str "")]),
        .obj (objOf [("name", .str "開放的心態"), ("amount", .str "滿滿的"),
          ("unit", .str "")])])),
     ("steps", .arr (listToJArr
       [.obj (objOf [("step_number", natNum 1),
          ("description", .str "仔細觀察圖片中的每個細節"),
          ("duration_minutes", natNum 2),
          ("temperature", .str "室溫"),
          ("tips", .arr (listToJArr [.str "放輕鬆，沒有標準答案"]))]),
        .obj (objOf [("step_number", natNum 2),
          ("description", .str "試著用不同角度理解圖片內容"),
          ("duration_minutes", natNum 3),
          ("temperature", .str "舒適環境"),
          ("tips", .arr (listToJArr [.str "每個人的理解都是獨特的"]))]),
        .obj (objOf [("step_number", natNum 3),
          ("description", .str "接受這可能不是一個傳統的食譜"),
          ("duration_minutes", natNum 1),
          ("temperature", .str "常溫"),
          ("tips", .arr (listToJArr [.str "生活中的驚喜總是意外出現"]))])])),
     ("servings", natNum 1),
     ("prep_time", natNum 1),
     ("cook_time", natNum 5),
     ("tags", .arr (listToJArr [.str "創意", .str "趣味", .str "療癒"]))])

/-- Embeds `RecipeAnalyzer._parse_json_response` (`src/analyzer.py`):
strip markdown fences, attempt strict JSON decoding, and on failure
return the fixed fallback object instead of raising. -/
def parse_json_response (response_text : String) : JVal :=
  match jsonDecode (stripFences response_text) with
  | some j => j
  | none => fallbackRecipe

/-- Name of the first ingredient of a recipe object, when present. -/
def firstIngredientName (j : JVal) : Option String :=
  match j with
  | .obj fs =>
      match fs.lookup "ingredients" with
      | some (.arr (.cons (.obj ing) _)) =>
          match ing.lookup "name" with
          | some (.str n) => some n
          | _ => none
      | _ => none
  | _ => none

/-! ### RecipeData and its serialization

`fence_wrap` and `json_dump` realise the spec's round-trip fixture:
wrapping a serialized recipe in a markdown code fence and serializing a
RecipeData value in `json.dumps` style.  The `RecipeData` shape follows
the spec's data model (`name`, `description`, `ingredients` of
`{name, amount, unit}`, `steps` of
`{step_number, description, duration_minutes, temperature?, tips?}`,
`servings`, `prep_time`, `cook_time`, `tags`). -/

/-- Modelled from the spec: `fence_wrap` puts a serialized recipe in a
markdown code fence with a language tag. -/
def fence_wrap (s : String) : String :=
  "```json\n" ++ s ++ "\n```"

/-- Modelled from the spec: `json_dump` serializes a JSON value in
`json.dumps` style (single line, `", "`/`": "` separators). -/
def json_dump (j : JVal) : String :=
  ⟨printJVal j⟩

/-- One ingredient of a RecipeData value. -/
structure Ingredient where
  name : String
  amount : String
  unit : String

/-- One step of a RecipeData value. -/
structure RecipeStep where
  step_number : ℕ
  description : String
  duration_minutes : ℕ
  temperature : Option String
  tips : Option (List String)

/-- A RecipeData value, per the spec's data model. -/
structure RecipeData where
  name : String
  description : String
  ingredients : List Ingredient
  steps : List RecipeStep
  servings : ℕ
  prep_time : ℕ
  cook_time : ℕ
  tags : List String

/-- The key/value pairs of an ingredient dict. -/
def ingredientFields (i : Ingredient) : List (String × JVal) :=
  [("name", .str i.name), ("amount", .str i.amount), ("unit", .str i.unit)]

/-- The JSON dict of an ingredient. -/
def ingredientToJson (i : Ingredient) : JVal :=
  .obj (objOf (ingredientFields i))

/-- The key/value pairs of a step dict (optional fields present only
when set). -/
def stepFields (s : RecipeStep) : List (String × JVal) :=
  [("step_number", natNum s.step_number),
   ("description", .str s.description),
   ("duration_minutes", natNum s.duration_minutes)] ++
    (match s.temperature with
      | some t => [("temperature", .str t)]
      | none => []) ++
    (match s.tips with
      | some ts => [("tips", .arr (listToJArr (ts.map .str)))]
      | none => [])

/-- The JSON dict of a step. -/
def stepToJson (s : RecipeStep) : JVal :=
  .obj (objOf (stepFields s))

/-- The key/value pairs of a RecipeData dict. -/
def recipeFields (R : RecipeData) : List (String × JVal) :=
  [("name", .str R.name),
   ("description", .str R.description),
   ("ingredients", .arr (listToJArr (R.ingredients.map ingredientToJson))),
   ("steps", .arr (listToJArr (R.steps.map stepToJson))),
   ("servings", natNum R.servings),
   ("prep_time", natNum R.prep_time),
   ("cook_time", natNum R.cook_time),
   ("tags", .arr (listToJArr (R.tags.map .str)))]

/-- The JSON dict of a RecipeData value: its Python dict form. -/
def recipeToJson (R : RecipeData) : JVal :=
  .obj (objOf (recipeFields R))

/-! ### Size measures and round-trip bookkeeping -/

mutual

/-- Structural size of a value (for parser fuel accounting). -/
def jsizeV : JVal → ℕ
  | .arr xs => jsizeA xs + 1
  | .obj fs => jsizeO fs + 1
  | _ => 1

/-- Structural size of an array spine. -/
def jsizeA : JArr → ℕ
  | .nil => 0
  | .cons v tl => jsizeV v + jsizeA tl + 1

/-- Structural size of an object spine. -/
def jsizeO : JObj → ℕ
  | .nil => 0
  | .cons _ v tl => jsizeV v + jsizeO tl + 1

end

/-- May a number token be followed by this input?  (Its head must not
extend the token.) -/
def numBoundaryB : List Char → Bool
  | [] => true
  | c :: _ => !(isJsonDigit c || c = '.' || c = 'e' || c = 'E')

/-- Everything the round-trip argument needs to know about a printed
value: single-line, non-empty, non-whitespace head, size bounded by its
print length, and the parser reads it back exactly. -/
structure GoodJ (v : JVal) : Prop where
  noNl : ∀ x ∈ printJVal v, x ≠ '\n'
  ne : printJVal v ≠ []
  headOK : ∀ c, (printJVal v).head? = some c →
      isJsonWs c = false ∧ c ≠ ']' ∧ c ≠ '}'
  size_le : jsizeV v ≤ (printJVal v).length
  parses : ∀ fuel rest, jsizeV v < fuel → numBoundaryB rest = true →
      parseValue fuel (printJVal v ++ rest) = some (v, rest)

/-! ## `src/analyzer.py`: `_validate_recipe_data` -/

/-- Embeds `RecipeAnalyzer._validate_recipe_data`: check the required
fields `name`, `ingredients`, `steps` for presence in order, then check
that `ingredients` and `steps` are lists; empty lists only log a
warning. -/
def validate_recipe_data (data : JObj) : Except PyErr Unit :=
  match data.lookup "name" with
  | none => .error (.valueError "Missing required field: name")
  | some _ =>
    match data.lookup "ingredients" with
    | none => .error (.valueError "Missing required field: ingredients")
    | some ing =>
      match data.lookup "steps" with
      | none => .error (.valueError "Missing required field: steps")
      | some st =>
        if ¬ ing.isArr then .error (.valueError "ingredients must be a list")
        else if ¬ st.isArr then .error (.valueError "steps must be a list")
        else .ok ()

/-- The raising criterion as the spec states it: a required key absent,
or `ingredients`/`steps` present but not a list. -/
def validateShouldRaise (data : JObj) : Bool :=
  (data.lookup "name").isNone ||
    (data.lookup "ingredients").isNone ||
    (data.lookup "steps").isNone ||
    (match data.lookup "ingredients" with
      | some v => !v.isArr
      | none => false) ||
    (match data.lookup "steps" with
      | some v => !v.isArr
      | none => false)

/-! ## `src/llm_config.py`: `APIKeyRotator` -/

/-- State of an `APIKeyRotator`: the filtered key list and the rotation
index (`src/llm_config.py`). -/
structure APIKeyRotator where
  keys : List String
  index : ℕ

/-- Embeds `APIKeyRotator.__init__`: strip every key, drop empty ones,
start at index 0; raise `ValueError` when nothing remains. -/
def APIKeyRotator.init (ks : List String) : Except PyErr APIKeyRotator :=
  let kept := (ks.map pyStripStr).filter (fun k => k ≠ "")
  if kept = [] then .error (.valueError "No valid API keys provided")
  else .ok { keys := kept, index := 0 }

/-- Embeds `APIKeyRotator.get_next`: return `keys[index]` and advance the
index modulo `len(keys)` (the key list is non-empty after `init`). -/
def APIKeyRotator.get_next (r : APIKeyRotator) : String × APIKeyRotator :=
  (r.keys.getD r.index "", { r with index := (r.index + 1) % r.keys.length })

/-- Outputs of `n` consecutive `get_next()` calls, with the final state. -/
def APIKeyRotator.calls : APIKeyRotator → ℕ → List String × APIKeyRotator
  | r, 0 => ([], r)
  | r, n + 1 =>
      let (k, r2) := r.get_next
      let (ks, r3) := r2.calls n
      (k :: ks, r3)

/-! # Theorems -/

/-! ### Option plumbing for parser proofs -/

theorem optBind_eq {α β : Type} {ox : Option α} {x : α} (h : ox = some x)
    (f : α → Option β) : ox.bind f = f x := by
  rw [h, Option.some_bind]

theorem optMap_eq {α β : Type} {ox : Option α} {x : α} (h : ox = some x)
    (f : α → β) : ox.map f = some (f x) := by
  rw [h, Option.map_some']

/-! ### Character-class facts -/

theorem digitChar_isDigit (m : ℕ) (h : m < 10) :
    isJsonDigit (Nat.digitChar m) = true := by
  interval_cases m <;> rfl

theorem digitChar_ne_zero (m : ℕ) (h : m < 10) (h2 : m ≠ 0) :
    Nat.digitChar m ≠ '0' := by
  interval_cases m
  · exact absurd rfl h2
  all_goals decide

/-- A decimal digit is none of the characters the parsers and the fence
scanner branch on. -/
theorem isJsonDigit_ne (c : Char) (h : isJsonDigit c = true) :
    c ≠ '-' ∧ c ≠ '{' ∧ c ≠ '[' ∧ c ≠ '"' ∧ c ≠ 't' ∧ c ≠ 'f' ∧ c ≠ 'n' ∧
      c ≠ '.' ∧ c ≠ 'e' ∧ c ≠ 'E' ∧ isJsonWs c = false ∧ c ≠ '\n' ∧ c ≠ '`' ∧
      c ≠ ']' ∧ c ≠ '}' := by
  refine ⟨?_, ?_, ?_, ?_, ?_, ?_, ?_, ?_, ?_, ?_, ?_, ?_, ?_, ?_, ?_⟩ <;>
    try (intro hc; subst hc; exact absurd h (by decide))
  have ht : isJsonWs c = true → False := by
    intro ht
    have hmem : ((c = ' ' ∨ c = '\t') ∨ c = '\n') ∨ c = '\r' := by
      simpa [isJsonWs, Bool.or_eq_true, decide_eq_true_eq] using ht
    rcases hmem with ((rfl | rfl) | rfl) | rfl <;> exact absurd h (by decide)
  cases hw : isJsonWs c
  · rfl
  · exact absurd (ht hw) (fun hf => hf)

/-! ### String-literal round trip -/

theorem escapeString_cons (c : Char) (s : List Char) :
    escapeString (c :: s) = escapeChar c ++ escapeString s := by
  simp [escapeString]

/-- Hex digits printed by the escaper decode to their value. -/
theorem hexVal_digitChar (m : ℕ) (h : m < 16) :
    hexVal (Nat.digitChar m) = some m := by
  interval_cases m <;> rfl

/-- Decoding a printed string literal body returns the original
characters and stops right after the closing quote. -/
theorem parseStringBody_escape (s rest : List Char) :
    parseStringBody (escapeString s ++ '"' :: rest) = some (s, rest) := by
  induction s with
  | nil => rfl
  | cons c s ih =>
      rw [escapeString_cons, List.append_assoc]
      by_cases h1 : c = '"'
      · subst h1
        show (parseStringBody (escapeString s ++ '"' :: rest)).map
            (fun p => ('"' :: p.1, p.2)) = _
        rw [ih]
        rfl
      · by_cases h2 : c = '\\'
        · subst h2
          show (parseStringBody (escapeString s ++ '"' :: rest)).map
              (fun p => ('\\' :: p.1, p.2)) = _
          rw [ih]
          rfl
        · by_cases h3 : c.toNat < 32
          · have hchar : escapeChar c =
                ['\\', 'u', '0', '0', Nat.digitChar (c.toNat / 16),
                  Nat.digitChar (c.toNat % 16)] := by
              rw [escapeChar, if_neg h1, if_neg h2, if_pos h3]
            rw [hchar]
            show (match hexVal '0', hexVal '0',
                hexVal (Nat.digitChar (c.toNat / 16)),
                hexVal (Nat.digitChar (c.toNat % 16)) with
              | some a, some b, some c3, some d =>
                  (parseStringBody (escapeString s ++ '"' :: rest)).map
                    (fun (p : List Char × List Char) =>
                      (Char.ofNat (4096 * a + 256 * b + 16 * c3 + d) :: p.1, p.2))
              | _, _, _, _ => none) = _
            rw [hexVal_digitChar (c.toNat / 16) (by omega),
              hexVal_digitChar (c.toNat % 16) (by omega)]
            show (parseStringBody (escapeString s ++ '"' :: rest)).map
                (fun (p : List Char × List Char) =>
                  (Char.ofNat (4096 * 0 + 256 * 0 + 16 * (c.toNat / 16)
                      + c.toNat % 16) :: p.1, p.2)) = _
            rw [ih]
            have harith : 4096 * 0 + 256 * 0 + 16 * (c.toNat / 16) + c.toNat % 16
                = c.toNat := by omega
            rw [harith, Char.ofNat_toNat]
            rfl
          · have hchar : escapeChar c = [c] := by
              rw [escapeChar, if_neg h1, if_neg h2, if_neg h3]
            rw [hchar]
            show parseStringBody (c :: (escapeString s ++ '"' :: rest)) = _
            simp only [parseStringBody]
            rw [if_neg h1, if_neg h2, if_neg h3, ih]
            rfl

/-- Reading a list back off by `getD` over `range` reproduces the list. -/
theorem getD_range_map {α : Type} (l : List α) (d : α) :
    (List.range l.length).map (fun j => l.getD j d) = l := by
  induction l with
  | nil => rfl
  | cons a t ih =>
      rw [List.length_cons, List.range_succ_eq_map, List.map_cons, List.map_map]
      refine congrArg (a :: ·) ?_
      calc List.map ((fun j => (a :: t).getD j d) ∘ Nat.succ) (List.range t.length)
          = List.map (fun j => t.getD j d) (List.range t.length) :=
            List.map_congr_left (fun j _ => rfl)
        _ = t := ih

/-- The `j`-th of `n` successive `get_next()` outputs, starting at a
legal index `i`, is key `(i + j) % len`. -/
theorem APIKeyRotator.calls_eq (keys : List String) (n : ℕ) :
    ∀ i, i < keys.length →
      ((APIKeyRotator.mk keys i).calls n).1
        = (List.range n).map (fun j => keys.getD ((i + j) % keys.length) "") := by
  induction n with
  | zero => intro i _; rfl
  | succ n ih =>
      intro i hi
      have hlen : 0 < keys.length := Nat.lt_of_le_of_lt (Nat.zero_le i) hi
      have hstep : ((APIKeyRotator.mk keys i).calls (n + 1)).1
          = keys.getD i ""
            :: ((APIKeyRotator.mk keys ((i + 1) % keys.length)).calls n).1 := rfl
      rw [hstep, ih ((i + 1) % keys.length) (Nat.mod_lt _ hlen),
        List.range_succ_eq_map, List.map_cons, List.map_map]
      refine congrArg₂ (· :: ·) ?_ ?_
      · rw [Nat.add_zero, Nat.mod_eq_of_lt hi]
      · refine List.map_congr_left (fun j _ => ?_)
        show keys.getD (((i + 1) % keys.length + j) % keys.length) ""
            = keys.getD ((i + (j + 1)) % keys.length) ""
        rw [Nat.mod_add_mod, Nat.add_assoc, Nat.add_comm 1 j]

/-- C1: `calculate_optimal_frame_count` realises the documented step
table in all three modes, and in `balanced` mode durations 185 / 620 /
1200 plan 12 / 24 / 36 frames. -/
theorem calculate_optimal_frame_count_matches_table (d : ℕ) :
    calculate_optimal_frame_count d "fast" = frameCountSpecTable d "fast" ∧
    calculate_optimal_frame_count d "balanced" = frameCountSpecTable d "balanced" ∧
    calculate_optimal_frame_count d "accurate" = frameCountSpecTable d "accurate" ∧
    calculate_optimal_frame_count 185 "balanced" = 12 ∧
    calculate_optimal_frame_count 620 "balanced" = 24 ∧
    calculate_optimal_frame_count 1200 "balanced" = min 36 (max 24 40) := by
  refine ⟨rfl, rfl, rfl, by decide, by decide, by decide⟩

/-- C9: a rotator built from `k` valid (already-stripped, non-empty)
keys returns, over the first `k` calls, exactly the pool in its original
order, and the `(k+1)`-th call repeats the first key. -/
theorem rotator_round_robin (pool : List String) (r : APIKeyRotator)
    (hvalid : ∀ s ∈ pool, pyStripStr s = s ∧ s ≠ "")
    (hinit : APIKeyRotator.init pool = .ok r) :
    (r.calls pool.length).1 = pool ∧
      (r.calls (pool.length + 1)).1 = pool ++ [pool.getD 0 ""] := by
  have hmap : pool.map pyStripStr = pool := by
    have := List.map_congr_left (fun s hs => (hvalid s hs).1)
    simpa using this
  have hfilter : (pool.map pyStripStr).filter (fun k => k ≠ "") = pool := by
    rw [hmap]
    exact List.filter_eq_self.mpr (fun s hs => by
      simpa using (hvalid s hs).2)
  unfold APIKeyRotator.init at hinit
  rw [hfilter] at hinit
  by_cases hne : pool = []
  · subst hne; simp at hinit
  · rw [if_neg hne] at hinit
    have hr : r = APIKeyRotator.mk pool 0 := by
      cases hinit; rfl
    subst hr
    have hlen : 0 < pool.length := List.length_pos.mpr hne
    constructor
    · rw [APIKeyRotator.calls_eq pool pool.length 0 hlen]
      calc (List.range pool.length).map (fun j => pool.getD ((0 + j) % pool.length) "")
          = (List.range pool.length).map (fun j => pool.getD j "") := by
            refine List.map_congr_left (fun j hj => ?_)
            rw [Nat.zero_add, Nat.mod_eq_of_lt (List.mem_range.mp hj)]
        _ = pool := getD_range_map pool ""
    · rw [APIKeyRotator.calls_eq pool (pool.length + 1) 0 hlen, List.range_succ,
        List.map_append]
      refine congrArg₂ (· ++ ·) ?_ ?_
      · calc (List.range pool.length).map (fun j => pool.getD ((0 + j) % pool.length) "")
            = (List.range pool.length).map (fun j => pool.getD j "") := by
              refine List.map_congr_left (fun j hj => ?_)
              rw [Nat.zero_add, Nat.mod_eq_of_lt (List.mem_range.mp hj)]
          _ = pool := getD_range_map pool ""
      · rw [List.map_singleton, Nat.zero_add, Nat.mod_self]

/-- C2 (counterexample): for the 30-frame list and target 22, the code
selects `frames[14]` as the 11-th key frame, while the claimed formula
`floor(i*n/t)` demands `frames[15]`: binary64 rounding makes
`int(11 * (30 / 22)) = 14` although `(11 * 30) // 22 = 15`. -/
theorem select_key_frames_claim_counterexample :
    (select_key_frames frames30 22).map (fun res => res.getD 11 "") = .ok "f14" ∧
      (11 * frames30.length) / 22 = 15 ∧
      frames30.getD 15 "" = "f15" ∧ "f14" ≠ "f15" := by
  exact ⟨rfl, rfl, rfl, by decide⟩

/-- C2 (amended): if `n ≤ t` the input list is returned unchanged; if
`n > t` and the call returns, the result has length exactly `t` and its
`i`-th element is the frame at index `int(i * (n / t))` computed in
binary64 arithmetic — which can differ by one from the claimed
`floor(i*n/t)`. -/
theorem select_key_frames_amended (frames : List String) (count : ℕ) :
    (frames.length ≤ count → select_key_frames frames count = .ok frames) ∧
      (∀ res, count < frames.length → select_key_frames frames count = .ok res →
        res.length = count ∧
          ∀ i < count, res.getD i "" = frames.getD (pyFloatIdx i frames.length count) "") := by
  constructor
  · intro hle
    unfold select_key_frames
    rw [if_pos hle]
  · intro res hlt hok
    unfold select_key_frames at hok
    rw [if_neg (Nat.not_le.mpr hlt)] at hok
    by_cases hc : count = 0
    · subst hc
      rw [if_pos rfl] at hok
      cases hok
    · rw [if_neg hc] at hok
      by_cases hall : ((List.range count).map
          (fun i => pyFloatIdx i frames.length count)).all
            (fun ix => ix < frames.length)
      · simp only [hall, if_true, Except.ok.injEq] at hok
        subst hok
        constructor
        · simp
        · intro i hi
          have hlen : i < (((List.range count).map
              (fun i => pyFloatIdx i frames.length count)).map
                (fun ix => frames.getD ix "")).length := by
            simpa using hi
          rw [List.getD_eq_getElem _ _ hlen]
          simp [List.getElem_map, List.getElem_range]
      · simp only [hall, if_false] at hok
        cases hok

/-- Witness for the amended C2 at concrete inputs on both branches. -/
theorem select_key_frames_amended_witness :
    select_key_frames ["a", "b", "c"] 5 = .ok ["a", "b", "c"] ∧
      (match select_key_frames frames30 22 with
        | .ok res => res.length
        | .error _ => 0) = 22 := by
  refine ⟨(select_key_frames_amended ["a", "b", "c"] 5).1 (by decide), ?_⟩
  have h := (select_key_frames_amended frames30 22).2
      (((List.range 22).map (fun i => pyFloatIdx i frames30.length 22)).map
        (fun ix => frames30.getD ix "")) (by decide) rfl
  exact h.1

/-- Inserting into a string list never empties it. -/
theorem insertStr_ne_nil (s : String) (l : List String) : insertStr s l ≠ [] := by
  cases l with
  | nil => simp [insertStr]
  | cons t rest =>
      unfold insertStr
      split <;> simp

/-- Sorting a non-empty string list yields a non-empty list. -/
theorem sortStrings_ne_nil (l : List String) (h : l ≠ []) :
    sortStrings l ≠ [] := by
  cases l with
  | nil => exact absurd rfl h
  | cons s rest => exact insertStr_ne_nil s (sortStrings rest)

/-- Any successful gallery-dl result is a photo carousel and carries no
video path. -/
theorem gallery_ok_is_carousel (g : GalleryEnv) (r : DownloadResult)
    (h : download_photos_with_gallery_dl g = .ok r) :
    r.video_path = none ∧ r.is_photo_carousel = true := by
  unfold download_photos_with_gallery_dl at h
  split at h
  · cases h
  · split at h
    · cases h
    · split at h
      · cases h
      · rename_i hphotos
        cases h
        refine ⟨rfl, ?_⟩
        show (!(sortStrings g.photosFound).isEmpty) = true
        simpa [List.isEmpty_iff] using sortStrings_ne_nil g.photosFound hphotos

/-- Any successful `_download_with_ydl` result is exclusively a video or
exclusively a photo carousel. -/
theorem ydl_ok_invariant (od fp : String) (y : YdlOutcome) (g : GalleryEnv)
    (r : DownloadResult) (h : download_with_ydl od fp y g = .ok r) :
    (r.is_video = true ∧ r.is_photo_carousel = false) ∨
      (r.is_video = false ∧ r.is_photo_carousel = true) := by
  cases y with
  | success vid ext fileEx thumb =>
      simp only [download_with_ydl] at h
      split at h
      · cases h
        exact Or.inl ⟨rfl, rfl⟩
      · cases h
  | noInfo => simp only [download_with_ydl] at h; cases h
  | dlError msg =>
      simp only [download_with_ydl] at h
      split at h
      · have hg := gallery_ok_is_carousel _ _ h
        refine Or.inr ⟨?_, hg.2⟩
        simp [DownloadResult.is_video, hg.1]
      · split at h
        · cases h
        · split at h
          · cases h
          · split at h <;> cases h
  | otherError msg => simp only [download_with_ydl] at h; cases h

/-! ### Number-token round trip -/

/-- Digit runs: `takeWhile`/`dropWhile` pass over an all-satisfying
block. -/
theorem takeWhile_append_all (p : Char → Bool) (l rest : List Char)
    (hall : ∀ c ∈ l, p c = true) :
    (l ++ rest).takeWhile p = l ++ rest.takeWhile p ∧
      (l ++ rest).dropWhile p = rest.dropWhile p := by
  induction l with
  | nil => simp
  | cons c t ih =>
      have hc := hall c (by simp)
      have ht := ih (fun x hx => hall x (by simp [hx]))
      simp [List.takeWhile_cons, List.dropWhile_cons, hc, ht.1, ht.2]

/-- The digits of `n`, under enough fuel: non-empty and all digits. -/
theorem natDigitsAux_digits : ∀ fuel n, n < fuel →
    natDigitsAux fuel n ≠ [] ∧ ∀ c ∈ natDigitsAux fuel n, isJsonDigit c = true := by
  intro fuel
  induction fuel with
  | zero => intro n h; omega
  | succ fuel ih =>
      intro n h
      rw [natDigitsAux]
      by_cases h10 : n < 10
      · rw [if_pos h10]
        refine ⟨by simp, ?_⟩
        intro c hc
        rw [List.mem_singleton] at hc
        subst hc
        exact digitChar_isDigit n h10
      · rw [if_neg h10]
        have hdiv : n / 10 < fuel := by
          have h1 : n / 10 < n := Nat.div_lt_self (by omega) (by omega)
          omega
        have hrec := ih (n / 10) hdiv
        refine ⟨by simp, ?_⟩
        intro c hc
        rw [List.mem_append] at hc
        rcases hc with hc | hc
        · exact hrec.2 c hc
        · rw [List.mem_singleton] at hc
          subst hc
          exact digitChar_isDigit (n % 10) (Nat.mod_lt _ (by omega))

/-- For non-zero `n` the leading digit is not `'0'`. -/
theorem natDigitsAux_head : ∀ fuel n, n < fuel → n ≠ 0 →
    ∃ d ds, natDigitsAux fuel n = d :: ds ∧ d ≠ '0' ∧ isJsonDigit d = true := by
  intro fuel
  induction fuel with
  | zero => intro n h; omega
  | succ fuel ih =>
      intro n h hnz
      rw [natDigitsAux]
      by_cases h10 : n < 10
      · rw [if_pos h10]
        exact ⟨Nat.digitChar n, [], rfl, digitChar_ne_zero n h10 hnz,
          digitChar_isDigit n h10⟩
      · rw [if_neg h10]
        have hdiv : n / 10 < fuel := by
          have h1 : n / 10 < n := Nat.div_lt_self (by omega) (by omega)
          omega
        obtain ⟨d, ds, heq, hd0, hdd⟩ := ih (n / 10) hdiv (by omega)
        exact ⟨d, ds ++ [Nat.digitChar (n % 10)], by rw [heq]; rfl, hd0, hdd⟩

/-- At a boundary, the fraction/exponent parts consume nothing. -/
theorem parseFracPart_boundary (acc rest : List Char)
    (hb : numBoundaryB rest = true) :
    parseFracPart acc rest = some (acc, rest) := by
  cases rest with
  | nil => rfl
  | cons c r =>
      have hb' : ((isJsonDigit c = false ∧ ¬c = '.') ∧ ¬c = 'e') ∧ ¬c = 'E' := by
        simpa [numBoundaryB, Bool.or_eq_true, decide_eq_true_eq, not_or]
          using hb
      rw [parseFracPart, if_neg hb'.1.1.2, parseExpPart,
        if_neg (by rintro (rfl | rfl) <;> simp_all)]

/-- A printed natural number re-tokenizes to itself at a boundary. -/
theorem parseNumberTok_nat (n : ℕ) (rest : List Char)
    (hb : numBoundaryB rest = true) :
    parseNumberTok (natToChars n ++ rest) = some (natToChars n, rest) := by
  have hrestTake : rest.takeWhile isJsonDigit = [] ∧
      rest.dropWhile isJsonDigit = rest := by
    cases rest with
    | nil => simp
    | cons c r =>
        have hb' : ((isJsonDigit c = false ∧ ¬c = '.') ∧ ¬c = 'e') ∧ ¬c = 'E' := by
          simpa [numBoundaryB, Bool.or_eq_true, decide_eq_true_eq, not_or]
            using hb
        simp [List.takeWhile_cons, List.dropWhile_cons, hb'.1.1.1]
  by_cases hz : n = 0
  · subst hz
    show parseNumberTok ('0' :: rest) = _
    rw [parseNumberTok, if_neg (by decide), parseNumAfterSign, if_pos rfl]
    exact parseFracPart_boundary _ _ hb
  · obtain ⟨d, ds, heq0, hd0, hdd⟩ :=
      natDigitsAux_head (n + 1) n (by omega) hz
    have heq : natToChars n = d :: ds := heq0
    have hds : ∀ c ∈ ds, isJsonDigit c = true := by
      intro c hc
      exact (natDigitsAux_digits (n + 1) n (by omega)).2 c
        (by rw [heq0]; simp [hc])
    have hdne := isJsonDigit_ne d hdd
    rw [heq, List.cons_append, parseNumberTok, if_neg hdne.1,
      parseNumAfterSign, if_neg hd0, if_pos hdd]
    have htw := takeWhile_append_all isJsonDigit ds rest hds
    rw [htw.1, htw.2, hrestTake.1, hrestTake.2, List.append_nil]
    exact parseFracPart_boundary _ _ hb

/-! ### Round-trip building blocks: strings and numbers as values -/

theorem digitChar_ne_nl (m : ℕ) (h : m < 16) : Nat.digitChar m ≠ '\n' := by
  interval_cases m <;> decide

theorem escapeChar_noNl (c : Char) : ∀ x ∈ escapeChar c, x ≠ '\n' := by
  intro x hx
  rw [escapeChar] at hx
  by_cases h1 : c = '"'
  · rw [if_pos h1] at hx
    simp only [List.mem_cons, List.mem_singleton, List.not_mem_nil,
      or_false] at hx
    rcases hx with rfl | rfl <;> decide
  · rw [if_neg h1] at hx
    by_cases h2 : c = '\\'
    · rw [if_pos h2] at hx
      simp only [List.mem_cons, List.mem_singleton, List.not_mem_nil,
        or_false] at hx
      rcases hx with rfl | rfl <;> decide
    · rw [if_neg h2] at hx
      by_cases h3 : c.toNat < 32
      · rw [if_pos h3] at hx
        simp only [List.mem_cons, List.not_mem_nil, or_false] at hx
        rcases hx with rfl | rfl | rfl | rfl | rfl | rfl
        · decide
        · decide
        · decide
        · decide
        · exact digitChar_ne_nl _ (by omega)
        · exact digitChar_ne_nl _ (by omega)
      · rw [if_neg h3] at hx
        simp only [List.mem_singleton] at hx
        subst hx
        intro hc
        subst hc
        exact h3 (by decide)

theorem printStr_noNl (s : String) : ∀ x ∈ printStr s, x ≠ '\n' := by
  intro x hx
  simp only [printStr, escapeString, List.mem_cons, List.mem_append,
    List.mem_singleton, List.mem_flatMap] at hx
  rcases hx with rfl | ⟨c, _, hc⟩ | rfl | hfalse
  · decide
  · exact escapeChar_noNl c x hc
  · decide
  · exact absurd hfalse (List.not_mem_nil x)

/-- A printed string literal is a good value. -/
theorem good_str (s : String) : GoodJ (.str s) := by
  constructor
  · exact printStr_noNl s
  · simp [printJVal, printStr]
  · intro c hc
    simp only [printJVal, printStr, List.head?_cons, Option.some.injEq] at hc
    subst hc
    decide
  · show 1 ≤ (printStr s).length
    simp [printStr]
  · intro fuel rest hf hb
    cases fuel with
    | zero => omega
    | succ f =>
        show parseValue (f + 1) (('"' :: (escapeString s.data ++ ['"'])) ++ rest)
            = _
        rw [show ('"' :: (escapeString s.data ++ ['"'])) ++ rest
            = '"' :: (escapeString s.data ++ '"' :: rest) by simp]
        show (parseStringBody (escapeString s.data ++ '"' :: rest)).map
            (fun (p : List Char × List Char) => ((JVal.str ⟨p.1⟩ : JVal), p.2))
          = _
        rw [parseStringBody_escape]
        rfl

/-- A printed natural number is a good value. -/
theorem good_natNum (n : ℕ) : GoodJ (natNum n) := by
  have hchars := natDigitsAux_digits (n + 1) n (by omega)
  have hne : natToChars n ≠ [] := hchars.1
  have hall : ∀ c ∈ natToChars n, isJsonDigit c = true := hchars.2
  have hprint : printJVal (natNum n) = natToChars n := rfl
  constructor
  · intro x hx
    rw [hprint] at hx
    obtain ⟨-, -, -, -, -, -, -, -, -, -, -, h12, -, -, -⟩ :=
      isJsonDigit_ne x (hall x hx)
    exact h12
  · rw [hprint]; exact hne
  · intro c0 hc0
    rw [hprint] at hc0
    cases he : natToChars n with
    | nil => exact absurd he hne
    | cons d ds =>
        have hd : isJsonDigit d = true := hall d (by rw [he]; simp)
        rw [he, List.head?_cons, Option.some.injEq] at hc0
        subst hc0
        obtain ⟨-, -, -, -, -, -, -, -, -, -, h11, -, -, h14, h15⟩ :=
          isJsonDigit_ne d hd
        exact ⟨h11, h14, h15⟩
  · rw [hprint]
    show jsizeV (natNum n) ≤ _
    have : jsizeV (natNum n) = 1 := rfl
    rw [this]
    exact List.length_pos.mpr hne
  · intro fuel rest hf hb
    cases fuel with
    | zero => omega
    | succ f =>
        rw [hprint]
        cases he : natToChars n with
        | nil => exact absurd he hne
        | cons d ds =>
            have hd : isJsonDigit d = true := hall d (by rw [he]; simp)
            obtain ⟨-, hbrace, hbrack, hquote, ht, hfc, hn, -, -, -, -, -, -, -, -⟩ :=
              isJsonDigit_ne d hd
            rw [List.cons_append]
            show parseValue (f + 1) (d :: (ds ++ rest)) = _
            rw [parseValue, if_neg hbrace, if_neg hbrack, if_neg hquote,
              if_neg ht, if_neg hfc, if_neg hn, ← List.cons_append, ← he,
              parseNumberTok_nat n rest hb]
            rfl

/-! ### Round-trip building blocks: spines -/

theorem skipJsonWs_cons_false {c : Char} (h : isJsonWs c = false)
    (t : List Char) : skipJsonWs (c :: t) = c :: t := by
  simp [skipJsonWs, List.dropWhile_cons, h]

theorem skipJsonWs_space (t : List Char) :
    skipJsonWs (' ' :: t) = skipJsonWs t := by
  rw [skipJsonWs, skipJsonWs, List.dropWhile_cons,
    if_pos (show isJsonWs ' ' = true from rfl)]

theorem skipJsonWs_good (v : JVal) (hv : GoodJ v) (X : List Char) :
    skipJsonWs (printJVal v ++ X) = printJVal v ++ X := by
  cases he : printJVal v with
  | nil => exact absurd he hv.ne
  | cons c t =>
      rw [List.cons_append]
      exact skipJsonWs_cons_false ((hv.headOK c (by rw [he]; rfl)).1) _

theorem numBoundary_comma (x : List Char) : numBoundaryB (',' :: x) = true := rfl

theorem numBoundary_rbrack (x : List Char) : numBoundaryB (']' :: x) = true := rfl

theorem numBoundary_rbrace (x : List Char) : numBoundaryB ('}' :: x) = true := rfl

/-- A printed non-empty array spine starts with a non-whitespace
character, so whitespace skipping leaves it alone. -/
theorem skipJsonWs_printJArr (l : List JVal) (hne : l ≠ [])
    (hl : ∀ v ∈ l, GoodJ v) (X : List Char) :
    skipJsonWs (printJArr (listToJArr l) ++ X)
      = printJArr (listToJArr l) ++ X := by
  cases l with
  | nil => exact absurd rfl hne
  | cons v t =>
      have hv := hl v (by simp)
      cases t with
      | nil => exact skipJsonWs_good v hv X
      | cons w t2 =>
          show skipJsonWs ((printJVal v ++ ',' :: ' ' ::
              printJArr (listToJArr (w :: t2))) ++ X) = _
          calc skipJsonWs ((printJVal v ++ ',' :: ' ' ::
                printJArr (listToJArr (w :: t2))) ++ X)
              = skipJsonWs (printJVal v ++ (',' :: ' ' ::
                  printJArr (listToJArr (w :: t2)) ++ X)) := by
                rw [List.append_assoc]
            _ = printJVal v ++ (',' :: ' ' ::
                  printJArr (listToJArr (w :: t2)) ++ X) :=
                skipJsonWs_good v hv _
            _ = (printJVal v ++ ',' :: ' ' ::
                  printJArr (listToJArr (w :: t2))) ++ X := by
                rw [List.append_assoc]

/-- Elements of a printed array parse back to the spine (with the
one-line and size facts carried along). -/
theorem goodElems : ∀ (l : List JVal), (∀ v ∈ l, GoodJ v) →
    (∀ x ∈ printJArr (listToJArr l), x ≠ '\n') ∧
      jsizeA (listToJArr l) ≤ (printJArr (listToJArr l)).length + 1 ∧
      (∀ fuel rest, l ≠ [] → jsizeA (listToJArr l) < fuel →
        parseElems fuel (printJArr (listToJArr l) ++ ']' :: rest)
          = some (listToJArr l, rest)) := by
  intro l
  induction l with
  | nil =>
      intro _
      refine ⟨by simp [listToJArr, printJArr], ?_, ?_⟩
      · show jsizeA .nil ≤ _
        simp [jsizeA]
      · intro fuel rest hne
        exact absurd rfl hne
  | cons v t ih =>
      intro hl
      have hv : GoodJ v := hl v (by simp)
      have ht := ih (fun w hw => hl w (by simp [hw]))
      cases t with
      | nil =>
          refine ⟨?_, ?_, ?_⟩
          · show ∀ x ∈ printJVal v, x ≠ '\n'
            exact hv.noNl
          · show jsizeV v + jsizeA .nil + 1 ≤ (printJVal v).length + 1
            have := hv.size_le
            show jsizeV v + 0 + 1 ≤ _
            omega
          · intro fuel rest _ hsz
            cases fuel with
            | zero => exact absurd hsz (by omega)
            | succ f =>
                have hszv : jsizeV v < f := by
                  have : jsizeV v + 0 + 1 < f + 1 := hsz
                  omega
                show parseElems (f + 1) (printJVal v ++ ']' :: rest) = _
                rw [parseElems,
                  optBind_eq (hv.parses f (']' :: rest) hszv
                    (numBoundary_rbrack _))]
                dsimp only
                rw [skipJsonWs_cons_false (show isJsonWs ']' = false from rfl)]
                rfl
          | cons w t2 =>
          refine ⟨?_, ?_, ?_⟩
          · intro x hx
            show x ≠ '\n'
            have hx' : x ∈ printJVal v ++ ',' :: ' ' ::
                printJArr (listToJArr (w :: t2)) := hx
            rw [List.mem_append] at hx'
            rcases hx' with hx' | hx'
            · exact hv.noNl x hx'
            · simp only [List.mem_cons] at hx'
              rcases hx' with rfl | rfl | hx'
              · decide
              · decide
              · exact ht.1 x hx'
          · have h1 := hv.size_le
            have h2 := ht.2.1
            show jsizeV v + jsizeA (listToJArr (w :: t2)) + 1 ≤
                (printJVal v ++ ',' :: ' ' ::
                  printJArr (listToJArr (w :: t2))).length + 1
            rw [List.length_append]
            simp only [List.length_cons]
            omega
          · intro fuel rest _ hsz
            cases fuel with
            | zero => exact absurd hsz (by omega)
            | succ f =>
                have hszv : jsizeV v < f := by
                  have : jsizeV v + jsizeA (listToJArr (w :: t2)) + 1 < f + 1 :=
                    hsz
                  omega
                have hszt : jsizeA (listToJArr (w :: t2)) < f := by
                  have : jsizeV v + jsizeA (listToJArr (w :: t2)) + 1 < f + 1 :=
                    hsz
                  have hv1 : 1 ≤ jsizeV v := by
                    cases v <;> simp [jsizeV]
                  omega
                show parseElems (f + 1) ((printJVal v ++ ',' :: ' ' ::
                    printJArr (listToJArr (w :: t2))) ++ ']' :: rest) = _
                rw [show (printJVal v ++ ',' :: ' ' ::
                      printJArr (listToJArr (w :: t2))) ++ ']' :: rest
                    = printJVal v ++ (',' :: ' ' ::
                      (printJArr (listToJArr (w :: t2)) ++ ']' :: rest)) by
                  rw [List.append_assoc]; rfl]
                rw [parseElems,
                  optBind_eq (hv.parses f _ hszv (numBoundary_comma _))]
                dsimp only
                rw [skipJsonWs_cons_false (show isJsonWs ',' = false from rfl)]
                dsimp only
                rw [if_pos rfl, skipJsonWs_space,
                  skipJsonWs_printJArr (w :: t2) (by simp)
                    (fun u hu => hl u (by simp [List.mem_cons] at hu ⊢; tauto)) _,
                  optMap_eq (ht.2.2 f rest (by simp) hszt)]
                rfl

/-- The head character of a printed non-empty array spine is the head
of its first element's print. -/
theorem printJArr_head (v : JVal) (t : List JVal) (hv : GoodJ v) :
    ∃ c0 t0, printJArr (listToJArr (v :: t)) = c0 :: t0 ∧
      isJsonWs c0 = false ∧ c0 ≠ ']' ∧ c0 ≠ '}' := by
  cases he : printJVal v with
  | nil => exact absurd he hv.ne
  | cons c0 t0 =>
      have hOK := hv.headOK c0 (by rw [he]; rfl)
      cases t with
      | nil =>
          refine ⟨c0, t0, ?_, hOK.1, hOK.2.1, hOK.2.2⟩
          show printJVal v = _
          rw [he]
      | cons w t2 =>
          refine ⟨c0, t0 ++ ',' :: ' ' :: printJArr (listToJArr (w :: t2)),
            ?_, hOK.1, hOK.2.1, hOK.2.2⟩
          show printJVal v ++ ',' :: ' ' :: printJArr (listToJArr (w :: t2)) = _
          rw [he, List.cons_append]

/-- A printed array is a good value. -/
theorem good_arr (l : List JVal) (hl : ∀ v ∈ l, GoodJ v) :
    GoodJ (.arr (listToJArr l)) := by
  have hE := goodElems l hl
  constructor
  · intro x hx
    have hx' : x ∈ '[' :: (printJArr (listToJArr l) ++ [']']) := hx
    simp only [List.mem_cons, List.mem_append, List.mem_singleton,
      List.not_mem_nil, or_false] at hx'
    rcases hx' with rfl | hx' | rfl
    · decide
    · exact hE.1 x hx'
    · decide
  · show ('[' :: (printJArr (listToJArr l) ++ [']'])) ≠ []
    simp
  · intro c hc
    have hc' : ('[' :: (printJArr (listToJArr l) ++ [']'])).head? = some c := hc
    rw [List.head?_cons, Option.some.injEq] at hc'
    subst hc'
    decide
  · show jsizeA (listToJArr l) + 1 ≤
        ('[' :: (printJArr (listToJArr l) ++ [']'])).length
    have := hE.2.1
    simp only [List.length_cons, List.length_append, List.length_singleton]
    omega
  · intro fuel rest hf hb
    cases fuel with
    | zero => omega
    | succ f =>
        show parseValue (f + 1)
            (('[' :: (printJArr (listToJArr l) ++ [']'])) ++ rest) = _
        rw [show ('[' :: (printJArr (listToJArr l) ++ [']'])) ++ rest
            = '[' :: (printJArr (listToJArr l) ++ ']' :: rest) by simp]
        rw [parseValue, if_neg (show ¬('[' = '{') by decide), if_pos rfl]
        cases l with
        | nil =>
            rw [show printJArr (listToJArr ([] : List JVal)) ++ ']' :: rest
                = ']' :: rest from rfl,
              skipJsonWs_cons_false (show isJsonWs ']' = false from rfl)]
            rfl
        | cons v t =>
            have hv : GoodJ v := hl v (by simp)
            obtain ⟨c0, t0, hsp, hnw, hne1, -⟩ := printJArr_head v t hv
            have hszA : jsizeA (listToJArr (v :: t)) < f := by
              have : jsizeA (listToJArr (v :: t)) + 1 < f + 1 := hf
              omega
            rw [hsp, List.cons_append, skipJsonWs_cons_false hnw]
            dsimp only
            rw [if_neg hne1, ← List.cons_append, ← hsp,
              optMap_eq (hE.2.2 f rest (by simp) hszA)]

/-- A printed non-empty object spine starts with the quote of its first
key. -/
theorem printJObj_head (k : String) (v : JVal) (t : List (String × JVal)) :
    ∃ t0, printJObj (objOf ((k, v) :: t)) = '"' :: t0 := by
  cases t with
  | nil =>
      refine ⟨(escapeString k.data ++ ['"']) ++
        ':' :: ' ' :: printJVal v, ?_⟩
      show printStr k ++ ':' :: ' ' :: printJVal v = _
      rw [printStr, List.cons_append]
  | cons p2 t2 =>
      obtain ⟨k2, v2⟩ := p2
      refine ⟨(escapeString k.data ++ ['"']) ++
        ':' :: ' ' :: (printJVal v ++ ',' :: ' ' ::
          printJObj (objOf ((k2, v2) :: t2))), ?_⟩
      show printStr k ++ ':' :: ' ' ::
          (printJVal v ++ ',' :: ' ' :: printJObj (objOf ((k2, v2) :: t2))) = _
      rw [printStr, List.cons_append]

/-- Members of a printed object parse back to the spine. -/
theorem goodMembers : ∀ (fs : List (String × JVal)), (∀ p ∈ fs, GoodJ p.2) →
    (∀ x ∈ printJObj (objOf fs), x ≠ '\n') ∧
      jsizeO (objOf fs) ≤ (printJObj (objOf fs)).length + 1 ∧
      (∀ fuel rest, fs ≠ [] → jsizeO (objOf fs) < fuel →
        parseMembers fuel (printJObj (objOf fs) ++ '}' :: rest)
          = some (objOf fs, rest)) := by
  intro fs
  induction fs with
  | nil =>
      intro _
      refine ⟨by simp [objOf, printJObj], ?_, ?_⟩
      · show jsizeO .nil ≤ _
        simp [jsizeO]
      · intro fuel rest hne
        exact absurd rfl hne
  | cons p t ih =>
      intro hf
      obtain ⟨k, v⟩ := p
      have hv : GoodJ v := hf (k, v) (by simp)
      have ht := ih (fun q hq => hf q (by simp [hq]))
      cases t with
      | nil =>
          refine ⟨?_, ?_, ?_⟩
          · intro x hx
            have hx' : x ∈ printStr k ++ ':' :: ' ' :: printJVal v := hx
            rw [List.mem_append] at hx'
            rcases hx' with hx' | hx'
            · exact printStr_noNl k x hx'
            · simp only [List.mem_cons] at hx'
              rcases hx' with rfl | rfl | hx'
              · decide
              · decide
              · exact hv.noNl x hx'
          · show jsizeV v + jsizeO .nil + 1 ≤
                (printStr k ++ ':' :: ' ' :: printJVal v).length + 1
            have h1 := hv.size_le
            rw [List.length_append]
            simp only [List.length_cons]
            show jsizeV v + 0 + 1 ≤ _
            omega
          · intro fuel rest _ hsz
            cases fuel with
            | zero => exact absurd hsz (by omega)
            | succ f =>
                have hszv : jsizeV v < f := by
                  have : jsizeV v + 0 + 1 < f + 1 := hsz
                  omega
                show parseMembers (f + 1)
                    ((printStr k ++ ':' :: ' ' :: printJVal v) ++ '}' :: rest)
                  = _
                rw [show (printStr k ++ ':' :: ' ' :: printJVal v) ++ '}' :: rest
                    = '"' :: (escapeString k.data ++ '"' ::
                      (':' :: ' ' :: (printJVal v ++ '}' :: rest))) by
                  rw [printStr]; simp]
                rw [parseMembers]
                rw [parseStringBody_escape]
                dsimp only [Option.bind]
                rw [skipJsonWs_cons_false (show isJsonWs ':' = false from rfl)]
                try dsimp only
                rw [skipJsonWs_space, skipJsonWs_good v hv,
                  hv.parses f ('}' :: rest) hszv (numBoundary_rbrace _)]
                dsimp only [Option.bind]
                rw [skipJsonWs_cons_false (show isJsonWs '}' = false from rfl)]
                rfl
      | cons p2 t2 =>
          obtain ⟨k2, v2⟩ := p2
          refine ⟨?_, ?_, ?_⟩
          · intro x hx
            have hx' : x ∈ printStr k ++ ':' :: ' ' ::
                (printJVal v ++ ',' :: ' ' ::
                  printJObj (objOf ((k2, v2) :: t2))) := hx
            rw [List.mem_append] at hx'
            rcases hx' with hx' | hx'
            · exact printStr_noNl k x hx'
            · simp only [List.mem_cons, List.mem_append] at hx'
              rcases hx' with rfl | rfl | hx' | rfl | rfl | hx'
              · decide
              · decide
              · exact hv.noNl x hx'
              · decide
              · decide
              · exact ht.1 x hx'
          · show jsizeV v + jsizeO (objOf ((k2, v2) :: t2)) + 1 ≤
                (printStr k ++ ':' :: ' ' ::
                  (printJVal v ++ ',' :: ' ' ::
                    printJObj (objOf ((k2, v2) :: t2)))).length + 1
            have h1 := hv.size_le
            have h2 := ht.2.1
            rw [List.length_append]
            simp only [List.length_cons, List.length_append]
            omega
          · intro fuel rest _ hsz
            cases fuel with
            | zero => exact absurd hsz (by omega)
            | succ f =>
                have hv1 : 1 ≤ jsizeV v := by
                  cases v <;> simp [jsizeV]
                have hszv : jsizeV v < f := by
                  have : jsizeV v + jsizeO (objOf ((k2, v2) :: t2)) + 1 < f + 1 :=
                    hsz
                  omega
                have hszt : jsizeO (objOf ((k2, v2) :: t2)) < f := by
                  have : jsizeV v + jsizeO (objOf ((k2, v2) :: t2)) + 1 < f + 1 :=
                    hsz
                  omega
                show parseMembers (f + 1)
                    ((printStr k ++ ':' :: ' ' ::
                      (printJVal v ++ ',' :: ' ' ::
                        printJObj (objOf ((k2, v2) :: t2)))) ++ '}' :: rest)
                  = _
                rw [show (printStr k ++ ':' :: ' ' ::
                      (printJVal v ++ ',' :: ' ' ::
                        printJObj (objOf ((k2, v2) :: t2)))) ++ '}' :: rest
                    = '"' :: (escapeString k.data ++ '"' ::
                      (':' :: ' ' :: (printJVal v ++ ',' :: ' ' ::
                        (printJObj (objOf ((k2, v2) :: t2)) ++ '}' :: rest)))) by
                  rw [printStr]; simp]
                rw [parseMembers]
                rw [parseStringBody_escape]
                dsimp only [Option.bind]
                rw [skipJsonWs_cons_false (show isJsonWs ':' = false from rfl)]
                try dsimp only
                rw [skipJsonWs_space, skipJsonWs_good v hv,
                  hv.parses f _ hszv (numBoundary_comma _)]
                dsimp only [Option.bind]
                rw [skipJsonWs_cons_false (show isJsonWs ',' = false from rfl)]
                show Option.map (fun p => (JObj.cons k v p.1, p.2))
                    (parseMembers f (skipJsonWs (' ' ::
                      (printJObj (objOf ((k2, v2) :: t2)) ++ '}' :: rest))))
                  = _
                obtain ⟨t0, hsp2⟩ := printJObj_head k2 v2 t2
                rw [skipJsonWs_space, hsp2, List.cons_append,
                  skipJsonWs_cons_false (show isJsonWs '"' = false from rfl),
                  ← List.cons_append, ← hsp2,
                  ht.2.2 f rest (by simp) hszt]
                rfl

/-- A printed object is a good value. -/
theorem good_obj (fs : List (String × JVal)) (hf : ∀ p ∈ fs, GoodJ p.2) :
    GoodJ (.obj (objOf fs)) := by
  have hM := goodMembers fs hf
  constructor
  · intro x hx
    have hx' : x ∈ '{' :: (printJObj (objOf fs) ++ ['}']) := hx
    simp only [List.mem_cons, List.mem_append, List.mem_singleton,
      List.not_mem_nil, or_false] at hx'
    rcases hx' with rfl | hx' | rfl
    · decide
    · exact hM.1 x hx'
    · decide
  · show ('{' :: (printJObj (objOf fs) ++ ['}'])) ≠ []
    simp
  · intro c hc
    have hc' : ('{' :: (printJObj (objOf fs) ++ ['}'])).head? = some c := hc
    rw [List.head?_cons, Option.some.injEq] at hc'
    subst hc'
    decide
  · show jsizeO (objOf fs) + 1 ≤
        ('{' :: (printJObj (objOf fs) ++ ['}'])).length
    have := hM.2.1
    simp only [List.length_cons, List.length_append, List.length_singleton]
    omega
  · intro fuel rest hfu hb
    cases fuel with
    | zero => omega
    | succ f =>
        show parseValue (f + 1)
            (('{' :: (printJObj (objOf fs) ++ ['}'])) ++ rest) = _
        rw [show ('{' :: (printJObj (objOf fs) ++ ['}'])) ++ rest
            = '{' :: (printJObj (objOf fs) ++ '}' :: rest) by simp]
        rw [parseValue, if_pos rfl]
        cases fs with
        | nil =>
            rw [show printJObj (objOf ([] : List (String × JVal))) ++ '}' :: rest
                = '}' :: rest from rfl,
              skipJsonWs_cons_false (show isJsonWs '}' = false from rfl)]
            rfl
        | cons p t =>
            obtain ⟨k, v⟩ := p
            obtain ⟨t0, hsp⟩ := printJObj_head k v t
            have hszO : jsizeO (objOf ((k, v) :: t)) < f := by
              have : jsizeO (objOf ((k, v) :: t)) + 1 < f + 1 := hfu
              omega
            rw [hsp, List.cons_append,
              skipJsonWs_cons_false (show isJsonWs '"' = false from rfl)]
            dsimp only
            rw [if_neg (show ¬('"' = '}') by decide), ← List.cons_append, ← hsp,
              optMap_eq (hM.2.2 f rest (by simp) hszO)]

/-- An array of printed strings is a good value. -/
theorem good_strArr (ts : List String) :
    GoodJ (.arr (listToJArr (ts.map .str))) := by
  apply good_arr
  intro v hv
  simp only [List.mem_map] at hv
  obtain ⟨s, -, rfl⟩ := hv
  exact good_str s

/-- A printed ingredient dict is a good value. -/
theorem good_ingredient (i : Ingredient) : GoodJ (ingredientToJson i) := by
  apply good_obj
  intro p hp
  simp only [ingredientFields, List.mem_cons, List.not_mem_nil, or_false] at hp
  rcases hp with rfl | rfl | rfl <;> exact good_str _

/-- A printed step dict is a good value (whatever the optional fields). -/
theorem good_step (s : RecipeStep) : GoodJ (stepToJson s) := by
  apply good_obj
  intro p hp
  have hp2 : p ∈ stepFields s := hp
  rw [stepFields] at hp2
  cases ht : s.temperature with
  | none =>
      cases hts : s.tips with
      | none =>
          rw [ht, hts] at hp2
          simp only [List.append_nil, List.mem_cons, List.not_mem_nil,
            or_false] at hp2
          rcases hp2 with rfl | rfl | rfl
          · exact good_natNum _
          · exact good_str _
          · exact good_natNum _
      | some ts =>
          rw [ht, hts] at hp2
          simp only [List.append_nil, List.mem_append, List.mem_cons,
            List.not_mem_nil, or_false] at hp2
          rcases hp2 with (rfl | rfl | rfl) | rfl
          · exact good_natNum _
          · exact good_str _
          · exact good_natNum _
          · exact good_strArr ts
  | some t =>
      cases hts : s.tips with
      | none =>
          rw [ht, hts] at hp2
          simp only [List.append_nil, List.mem_append, List.mem_cons,
            List.not_mem_nil, or_false] at hp2
          rcases hp2 with (rfl | rfl | rfl) | rfl
          · exact good_natNum _
          · exact good_str _
          · exact good_natNum _
          · exact good_str t
      | some ts =>
          rw [ht, hts] at hp2
          simp only [List.mem_append, List.mem_cons,
            List.not_mem_nil, or_false] at hp2
          rcases hp2 with ((rfl | rfl | rfl) | rfl) | rfl
          · exact good_natNum _
          · exact good_str _
          · exact good_natNum _
          · exact good_str t
          · exact good_strArr ts

/-- The printed recipe dict is a good value: the round-trip core. -/
theorem good_recipe (R : RecipeData) : GoodJ (recipeToJson R) := by
  apply good_obj
  intro p hp
  simp only [recipeFields, List.mem_cons, List.not_mem_nil, or_false] at hp
  rcases hp with rfl | rfl | rfl | rfl | rfl | rfl | rfl | rfl
  · exact good_str _
  · exact good_str _
  · apply good_arr
    intro v hv
    simp only [List.mem_map] at hv
    obtain ⟨i, -, rfl⟩ := hv
    exact good_ingredient i
  · apply good_arr
    intro v hv
    simp only [List.mem_map] at hv
    obtain ⟨s, -, rfl⟩ := hv
    exact good_step s
  · exact good_natNum _
  · exact good_natNum _
  · exact good_natNum _
  · exact good_strArr _

/-- C7: `_validate_recipe_data` raises exactly when a required key is
absent or `ingredients`/`steps` is present but not a list; with all
three present and both lists (even empty), it returns normally. -/
theorem validate_recipe_data_raises_iff :
    (∀ data : JObj, isErrorB (validate_recipe_data data) = validateShouldRaise data) ∧
      (∀ v : JVal,
        validate_recipe_data
            (JObj.cons "name" v (JObj.cons "ingredients" (.arr .nil)
              (JObj.cons "steps" (.arr .nil) .nil)))
          = .ok ()) := by
  constructor
  · intro data
    unfold validate_recipe_data validateShouldRaise
    cases hn : data.lookup "name" with
    | none => simp [isErrorB, hn]
    | some nv =>
        cases hi : data.lookup "ingredients" with
        | none => simp [isErrorB, hn, hi]
        | some ing =>
            cases hs : data.lookup "steps" with
            | none => simp [isErrorB, hn, hi, hs]
            | some st =>
                cases hia : ing.isArr <;> cases hsa : st.isArr <;>
                  simp [isErrorB, hn, hi, hs, hia, hsa]
  · intro v
    rfl

/-- C4: every successfully returned `DownloadResult` is exclusively a
video or exclusively a non-empty photo carousel; and the carousel
scenario — Tier-1 `DownloadError` text containing both
`"unsupported url"` and `"photo"`, gallery-dl exiting with code 4 and
at least one image found — yields a successful photo-only result. -/
theorem download_result_variant_invariant :
    (∀ url od fp env r evs,
        download url od fp env = (.ok r, evs) →
          (r.is_video = true ∧ r.is_photo_carousel = false) ∨
            (r.is_video = false ∧ r.is_photo_carousel = true)) ∧
      (∀ od fp msg g,
        pyContains (pyLower msg) "unsupported url" = true →
        pyContains (pyLower msg) "photo" = true →
        g.returncode = 4 → g.timedOut = false → g.photosFound ≠ [] →
        download_with_ydl od fp (.dlError msg) g
          = .ok { video_path := none,
                  thumbnail_url :=
                    some (g.uploadUrl ((sortStrings g.photosFound).headD "")),
                  photo_paths := some (sortStrings g.photosFound) }) := by
  constructor
  · intro url od fp env r evs h
    unfold download at h
    split at h
    · cases h1 : download_with_ydl od fp env.tier1 env.tier1Gallery with
      | ok r1 =>
          rw [h1] at h
          dsimp only at h
          cases h
          exact ydl_ok_invariant _ _ _ _ _ h1
      | error e =>
          rw [h1] at h
          dsimp only at h
          split at h
          · cases hc : get_cookies_file (detect_platform url) env.fetchCookies with
            | none =>
                rw [hc] at h
                dsimp only at h
                cases h
            | some cf =>
                rw [hc] at h
                dsimp only at h
                cases h2 : download_with_ydl od fp env.tier2 env.tier2Gallery with
                | ok r2 =>
                    rw [h2] at h
                    dsimp only at h
                    cases h
                    exact ydl_ok_invariant _ _ _ _ _ h2
                | error e2 =>
                    rw [h2] at h
                    dsimp only at h
                    cases h
          · cases h
    · cases h
  · intro od fp msg g hu hp hrc hto hne
    simp only [download_with_ydl]
    rw [if_pos (by rw [hu, hp]; rfl)]
    unfold download_photos_with_gallery_dl
    rw [if_neg (by simp [hto]), if_neg (by simp [hrc]), if_neg hne]

/-- Witness for C4: a plain successful video download satisfies the
variant invariant, and the concrete TikTok-carousel scenario returns
the photo-only result. -/
theorem download_result_variant_invariant_witness :
    (((DownloadResult.mk (some "dl/video_abc.mp4") none none).is_video = true ∧
        (DownloadResult.mk (some "dl/video_abc.mp4") none none).is_photo_carousel
          = false) ∨
      ((DownloadResult.mk (some "dl/video_abc.mp4") none none).is_video = false ∧
        (DownloadResult.mk (some "dl/video_abc.mp4") none none).is_photo_carousel
          = true)) ∧
      download_with_ydl "dl" "video"
          (.dlError "Unsupported URL: https://www.tiktok.com/@user/photo/7")
          (GalleryEnv.mk 4 false ["dl/b.jpg", "dl/a.jpg"] (fun p => p))
        = .ok (DownloadResult.mk none (some "dl/a.jpg")
            (some ["dl/a.jpg", "dl/b.jpg"])) := by
  constructor
  · exact download_result_variant_invariant.1
      "https://www.youtube.com/watch?v=abc" "dl" "video"
      (DlEnv.mk (.success "abc" "mp4" true none)
        (GalleryEnv.mk 0 false [] (fun p => p)) (fun _ => none)
        .noInfo (GalleryEnv.mk 0 false [] (fun p => p)))
      (DownloadResult.mk (some "dl/video_abc.mp4") none none) [.ydlAttempt] rfl
  · exact download_result_variant_invariant.2 "dl" "video"
      "Unsupported URL: https://www.tiktok.com/@user/photo/7"
      (GalleryEnv.mk 4 false ["dl/b.jpg", "dl/a.jpg"] (fun p => p))
      (by decide) (by decide) rfl rfl (by decide)

/-- C5: when Tier 1 fails with an error whose lowercased text contains
the auth marker `"login required"` and the cookie store yields nothing
for the resolved platform, `download` raises the
authentication-required-but-unavailable `ValueError`, and its event
trace is exactly one download attempt followed by one credential
lookup — no second download attempt. -/
theorem download_auth_required_unavailable
    (url od fp : String) (env : DlEnv) (e : PyErr)
    (hurl : (pyStartsWith url "http://" || pyStartsWith url "https://") = true)
    (h1 : download_with_ydl od fp env.tier1 env.tier1Gallery = .error e)
    (hmark : pyContains (pyLower e.text) "login required" = true)
    (hcook : get_cookies_file (detect_platform url) env.fetchCookies = none) :
    download url od fp env
      = (.error (.valueError (authUnavailableMsg (detect_platform url))),
          [.ydlAttempt, .cookieLookup]) := by
  unfold download
  rw [if_pos hurl, h1]
  dsimp only
  have hany : (AUTH_KEYWORDS.any fun k => pyContains (pyLower e.text) k) = true :=
    List.any_eq_true.mpr ⟨"login required", by simp [AUTH_KEYWORDS], hmark⟩
  rw [if_pos hany, hcook]

/-- Witness for C5: a concrete YouTube URL whose Tier-1 attempt raises
a login-required error while the cookie fetch yields nothing. -/
theorem download_auth_required_unavailable_witness :
    download "https://www.youtube.com/watch?v=abc" "dl" "video"
        (DlEnv.mk (.dlError "ERROR: Login required")
          (GalleryEnv.mk 0 false [] (fun p => p)) (fun _ => none)
          .noInfo (GalleryEnv.mk 0 false [] (fun p => p)))
      = (.error (.valueError (authUnavailableMsg "youtube")),
          [.ydlAttempt, .cookieLookup]) := by
  exact download_auth_required_unavailable
    "https://www.youtube.com/watch?v=abc" "dl" "video"
    (DlEnv.mk (.dlError "ERROR: Login required")
      (GalleryEnv.mk 0 false [] (fun p => p)) (fun _ => none)
      .noInfo (GalleryEnv.mk 0 false [] (fun p => p)))
    (.valueError "[RETRYABLE] Login required: ERROR: Login required")
    (by decide) rfl (by decide) rfl

/-- C3: supplementing one scene frame taken at 200 s (duration 300 s,
target 2) adds `uniform_0000.jpg` at 150 s, and the file-name sort puts
every `scene_*` name before every `uniform_*` name, so the returned
list has timestamps `[200, 150]` — not temporally sorted, although the
method's own docstring promises a timestamp-sorted result. -/
theorem supplement_with_uniform_breaks_temporal_order :
    supplement_with_uniform 300 [Frame.mk "scene_0001.jpg" 200] 2
        = [Frame.mk "scene_0001.jpg" 200, Frame.mk "uniform_0000.jpg" 150] ∧
      tsSortedB
        [Frame.mk "scene_0001.jpg" 200, Frame.mk "uniform_0000.jpg" 150] = false := by
  constructor
  · show sortByName [Frame.mk "scene_0001.jpg" 200,
      Frame.mk (uniformFrameName 0) (300 / ((1 : ℚ) + 1) * (0 + 1))] = _
    norm_num
    rfl
  · show (decide ((200 : ℚ) ≤ 150) && tsSortedB [Frame.mk "uniform_0000.jpg" 150]) = false
    norm_num

/-- C10: on a non-empty frame list, a target of zero reaches the
unguarded division `len(frame_paths) / count` and raises
`ZeroDivisionError`; an empty list with target zero returns normally. -/
theorem select_key_frames_zero_count :
    (∀ frames : List String, frames ≠ [] →
        select_key_frames frames 0 = .error .zeroDivisionError) ∧
      select_key_frames [] 0 = .ok [] := by
  constructor
  · intro frames hne
    unfold select_key_frames
    rw [if_neg, if_pos rfl]
    simpa using hne
  · rfl

/-- Witness for C10 at the one-element list. -/
theorem select_key_frames_zero_count_witness :
    select_key_frames ["frame_0001.jpg"] 0 = .error .zeroDivisionError :=
  select_key_frames_zero_count.1 ["frame_0001.jpg"] (by decide)

/-- Witness for C9 at the concrete pool `["alpha", "beta", "gamma"]`. -/
theorem rotator_round_robin_witness :
    ((APIKeyRotator.mk ["alpha", "beta", "gamma"] 0).calls 3).1
        = ["alpha", "beta", "gamma"] ∧
      ((APIKeyRotator.mk ["alpha", "beta", "gamma"] 0).calls 4).1
        = ["alpha", "beta", "gamma"] ++ ["alpha"] := by
  have h := rotator_round_robin ["alpha", "beta", "gamma"]
      (APIKeyRotator.mk ["alpha", "beta", "gamma"] 0) (by decide) (by rfl)
  exact ⟨h.1, h.2⟩

/-! ### Round-trip assembly: decoding a printed value, stripping the fence -/

/-- Decoding a printed good value returns it. -/
theorem jsonDecode_print (j : JVal) (hj : GoodJ j) :
    jsonDecode ⟨printJVal j⟩ = some j := by
  have hs : skipJsonWs (printJVal j) = printJVal j := by
    have h := skipJsonWs_good j hj []
    rwa [List.append_nil] at h
  have hp : parseValue ((printJVal j).length + 1) (printJVal j) = some (j, []) := by
    have h := hj.parses ((printJVal j).length + 1) []
      (by have := hj.size_le; omega) rfl
    rwa [List.append_nil] at h
  show (match parseValue ((printJVal j).length + 1) (skipJsonWs (printJVal j)) with
    | some (v, r) => if skipJsonWs r = [] then some v else none
    | none => none) = some j
  rw [hs, hp]
  dsimp only
  rw [if_pos (show skipJsonWs [] = ([] : List Char) from rfl)]

/-- `dropWhile` does nothing when the head fails the predicate. -/
theorem dropWhile_head_id (p : Char → Bool) (l : List Char)
    (h : ∀ c, l.head? = some c → p c = false) : l.dropWhile p = l := by
  cases l with
  | nil => rfl
  | cons a t => rw [List.dropWhile_cons, if_neg (by simp [h a rfl])]

/-- `strip()` does nothing when both ends are non-whitespace. -/
theorem pyStrip_id (l : List Char) (a b : Char)
    (ha : l.head? = some a) (hb : l.getLast? = some b)
    (hsa : pyIsSpace a = false) (hsb : pyIsSpace b = false) :
    pyStrip l = l := by
  cases l with
  | nil => simp at ha
  | cons x t =>
      rw [List.head?_cons, Option.some.injEq] at ha
      subst ha
      rw [pyStrip, List.dropWhile_cons, if_neg (by simp [hsa])]
      have hr : (x :: t).reverse.head? = some b := by
        rw [List.head?_reverse]; exact hb
      cases hrv : (x :: t).reverse with
      | nil => simp at hrv
      | cons y u =>
          rw [hrv, List.head?_cons, Option.some.injEq] at hr
          subst hr
          rw [List.dropWhile_cons, if_neg (by simp [hsb]), ← hrv,
            List.reverse_reverse]

/-- The second regex alternative cannot fire strictly inside the body:
the body has no newline and ends in a brace, so no greedy whitespace
run reaches three backticks followed by the end anchor. -/
theorem alt2_inner : ∀ (s : List Char), (∀ x ∈ s, x ≠ '\n') →
    s.getLast? = some '}' →
    alt2Match (s ++ ['\n', '`', '`', '`']) = none := by
  intro s
  induction s with
  | nil => intro _ hl; exact absurd hl (by decide)
  | cons c s2 ih =>
      intro hnl hl
      rw [alt2Match, List.cons_append, List.dropWhile_cons]
      by_cases hws : pyIsSpace c = true
      · rw [if_pos hws]
        cases s2 with
        | nil =>
            rw [List.getLast?_singleton, Option.some.injEq] at hl
            subst hl
            exact absurd hws (by decide)
        | cons c2 t2 =>
            rw [List.getLast?_cons_cons] at hl
            have h2 := ih (fun x hx => hnl x (List.mem_cons_of_mem c hx)) hl
            rw [alt2Match] at h2
            exact h2
      · rw [if_neg hws]
        dsimp only [alt2Head]
        by_cases hc : c = '`'
        · subst hc
          rw [if_pos rfl]
          cases s2 with
          | nil =>
              rw [List.getLast?_singleton] at hl
              exact absurd hl (by decide)
          | cons c2 t2 =>
              rw [List.cons_append]
              dsimp only [alt2After1]
              by_cases hc2 : c2 = '`'
              · subst hc2
                rw [if_pos rfl]
                cases t2 with
                | nil =>
                    rw [List.getLast?_cons_cons, List.getLast?_singleton] at hl
                    exact absurd hl (by decide)
                | cons c3 t3 =>
                    rw [List.cons_append]
                    dsimp only [alt2After2]
                    by_cases hc3 : c3 = '`'
                    · subst hc3
                      rw [if_pos rfl]
                      cases t3 with
                      | nil =>
                          rw [List.getLast?_cons_cons, List.getLast?_cons_cons,
                            List.getLast?_singleton] at hl
                          exact absurd hl (by decide)
                      | cons c4 t4 =>
                          rw [List.cons_append]
                          dsimp only [alt2End]
                          rw [if_neg (hnl c4 (by simp))]
                    · rw [if_neg hc3]
              · rw [if_neg hc2]
        · rw [if_neg hc]

theorem subFence_nil (fuel : ℕ) (b : Bool) : subFence fuel b [] = [] := by
  cases fuel <;> rfl

/-- At the closing fence the pattern matches and consumes the rest. -/
theorem matchFence_close (b : Bool) :
    matchFence b ['\n', '`', '`', '`'] = some ('`', []) := by
  cases b <;> rfl

/-- The pattern fails when both alternatives do. -/
theorem matchFence_none (b : Bool) (cs : List Char)
    (h1 : b = true → alt1Match cs = none)
    (h2 : alt2Match cs = none) :
    matchFence b cs = none := by
  cases b with
  | false =>
      rw [matchFence, if_neg (by decide)]
      exact h2
  | true =>
      rw [matchFence, if_pos rfl, h1 rfl]
      exact h2

/-- The scan passes the fenced body through unchanged and consumes the
closing fence. -/
theorem subFence_pass : ∀ (s : List Char) (b : Bool),
    (∀ x ∈ s, x ≠ '\n') →
    (s ≠ [] → s.getLast? = some '}') →
    (b = true → s.head? ≠ some '`') →
    ∀ fuel, s.length + 1 ≤ fuel →
    subFence fuel b (s ++ ['\n', '`', '`', '`']) = s := by
  intro s
  induction s with
  | nil =>
      intro b _ _ _ fuel hf
      cases fuel with
      | zero => simp at hf
      | succ f =>
          show subFence (f + 1) b ['\n', '`', '`', '`'] = []
          rw [subFence]
          rw [matchFence_close b]
          dsimp only
          exact subFence_nil f _
  | cons c s2 ih =>
      intro b hnl hl hh fuel hf
      cases fuel with
      | zero => simp at hf
      | succ f =>
          have hc : c ≠ '\n' := hnl c (by simp)
          rw [List.cons_append, subFence]
          have hm : matchFence b (c :: (s2 ++ ['\n', '`', '`', '`'])) = none := by
            apply matchFence_none
            · intro hb
              have hcb : c ≠ '`' := fun hcc => hh hb (by rw [hcc]; rfl)
              dsimp only [alt1Match]
              rw [if_neg hcb]
            · have ha2 := alt2_inner (c :: s2) hnl (hl (by simp))
              rw [List.cons_append] at ha2
              exact ha2
          rw [hm]
          dsimp only
          have hb2 : (c == '\n') = false := by
            rw [beq_eq_false_iff_ne]
            exact hc
          have ih2 := ih false (fun x hx => hnl x (List.mem_cons_of_mem c hx))
            (by
              intro hne
              cases s2 with
              | nil => exact absurd rfl hne
              | cons a t =>
                  have h3 := hl (by simp)
                  rw [List.getLast?_cons_cons] at h3
                  exact h3)
            (by intro hbf; exact absurd hbf (by decide))
            f (by
              have h4 : (c :: s2).length + 1 ≤ f + 1 := hf
              simp only [List.length_cons] at h4
              omega)
          rw [hb2, ih2]

/-- At the start of the stripped text the first alternative consumes
the opening fence, its tag and the newline. -/
theorem matchFence_open (c0 : Char) (r : List Char) (h : pyIsSpace c0 = false) :
    matchFence true
        ('`' :: '`' :: '`' :: 'j' :: 's' :: 'o' :: 'n' :: '\n' :: c0 :: r)
      = some ('\n', c0 :: r) := by
  rw [matchFence, if_pos rfl]
  dsimp only [alt1Match]
  rw [if_pos rfl]
  dsimp only [alt1After1]
  rw [if_pos rfl]
  dsimp only [alt1After2]
  rw [if_pos rfl]
  dsimp only [alt1Json]
  rw [if_pos (show ('j' : Char) = 'j' ∧ ('s' : Char) = 's' ∧ ('o' : Char) = 'o' ∧
      ('n' : Char) = 'n' from ⟨rfl, rfl, rfl, rfl⟩)]
  dsimp only [dropWsLast]
  rw [if_pos (show pyIsSpace '\n' = true from rfl)]
  rw [if_neg (by simp [h])]

/-- Stripping the fence from a wrapped single-line body that starts
with a brace and ends with a brace returns the body. -/
theorem stripFences_wrap (d1 : List Char)
    (hnl : ∀ x ∈ '{' :: d1, x ≠ '\n')
    (hl : ('{' :: d1).getLast? = some '}') :
    stripFences (fence_wrap ⟨'{' :: d1⟩) = ⟨'{' :: d1⟩ := by
  have hfw : fence_wrap ⟨'{' :: d1⟩
      = ⟨['`', '`', '`', 'j', 's', 'o', 'n', '\n'] ++
          (('{' :: d1) ++ ['\n', '`', '`', '`'])⟩ := rfl
  rw [hfw]
  show (⟨pyStrip (subFence
      ((pyStrip (['`', '`', '`', 'j', 's', 'o', 'n', '\n'] ++
          (('{' :: d1) ++ ['\n', '`', '`', '`']))).length + 1) true
        (pyStrip (['`', '`', '`', 'j', 's', 'o', 'n', '\n'] ++
          (('{' :: d1) ++ ['\n', '`', '`', '`']))))⟩ : String)
    = ⟨'{' :: d1⟩
  have hps : pyStrip (['`', '`', '`', 'j', 's', 'o', 'n', '\n'] ++
      (('{' :: d1) ++ ['\n', '`', '`', '`']))
    = ['`', '`', '`', 'j', 's', 'o', 'n', '\n'] ++
      (('{' :: d1) ++ ['\n', '`', '`', '`']) := by
    apply pyStrip_id _ '`' '`'
    · rfl
    · rw [List.getLast?_append_of_ne_nil _ (by simp),
        List.getLast?_append_of_ne_nil _ (by simp)]
      rfl
    · rfl
    · rfl
  rw [hps]
  have hsub : subFence ((['`', '`', '`', 'j', 's', 'o', 'n', '\n'] ++
        (('{' :: d1) ++ ['\n', '`', '`', '`'])).length + 1) true
      (['`', '`', '`', 'j', 's', 'o', 'n', '\n'] ++
        (('{' :: d1) ++ ['\n', '`', '`', '`']))
    = '{' :: d1 := by
    rw [show (['`', '`', '`', 'j', 's', 'o', 'n', '\n'] ++
        (('{' :: d1) ++ ['\n', '`', '`', '`'])).length + 1
      = (d1.length + 13) + 1 by
        simp only [List.length_append, List.length_cons, List.length_nil]
        omega]
    rw [show ['`', '`', '`', 'j', 's', 'o', 'n', '\n'] ++
        (('{' :: d1) ++ ['\n', '`', '`', '`'])
      = '`' :: '`' :: '`' :: 'j' :: 's' :: 'o' :: 'n' :: '\n' ::
        ('{' :: (d1 ++ ['\n', '`', '`', '`'])) by simp]
    rw [subFence, matchFence_open '{' (d1 ++ ['\n', '`', '`', '`']) rfl]
    dsimp only
    rw [show (('\n' : Char) == '\n') = true from rfl,
      ← List.cons_append]
    exact subFence_pass ('{' :: d1) true hnl (fun _ => hl)
      (by intro _; simp) (d1.length + 13)
      (by simp only [List.length_cons]; omega)
  rw [hsub]
  rw [pyStrip_id ('{' :: d1) '{' '}' rfl hl rfl rfl]

theorem parse_json_response_of_decode (s : String) (j : JVal)
    (h : jsonDecode (stripFences s) = some j) :
    parse_json_response s = j := by
  rw [parse_json_response, h]

theorem parse_json_response_of_fail (s : String)
    (h : jsonDecode (stripFences s) = none) :
    parse_json_response s = fallbackRecipe := by
  rw [parse_json_response, h]

/-- C8: for every RecipeData value, running the full-recipe parser on
the markdown-fence-wrapped serialization returns the value unchanged:
fence stripping plus strict decoding is lossless for well-formed fenced
JSON. -/
theorem parse_json_response_roundtrip (R : RecipeData) :
    parse_json_response (fence_wrap (json_dump (recipeToJson R)))
      = recipeToJson R := by
  have hg : GoodJ (recipeToJson R) := good_recipe R
  have hsh : printJVal (recipeToJson R)
      = '{' :: (printJObj (objOf (recipeFields R)) ++ ['}']) := by
    rw [recipeToJson, printJVal]
  have hnl : ∀ x ∈ '{' :: (printJObj (objOf (recipeFields R)) ++ ['}']),
      x ≠ '\n' := by
    rw [← hsh]; exact hg.noNl
  have hlast : ('{' :: (printJObj (objOf (recipeFields R)) ++ ['}'])).getLast?
      = some '}' := by
    rw [show '{' :: (printJObj (objOf (recipeFields R)) ++ ['}'])
        = ('{' :: printJObj (objOf (recipeFields R))) ++ ['}'] from rfl]
    exact List.getLast?_concat _
  have hjd : json_dump (recipeToJson R)
      = ⟨'{' :: (printJObj (objOf (recipeFields R)) ++ ['}'])⟩ := by
    rw [json_dump, hsh]
  apply parse_json_response_of_decode
  conv_lhs => rw [hjd, stripFences_wrap _ hnl hlast, ← hsh]
  exact jsonDecode_print _ hg

set_option maxRecDepth 40000 in
/-- C6: whenever fence stripping followed by strict decoding fails, the
full-recipe parser returns (rather than raises) the one fixed fallback
recipe object; the sample refusal sentence is such an input, and the
fallback object carries the placeholder first ingredient. -/
theorem parse_json_response_fallback :
    (∀ s : String, jsonDecode (stripFences s) = none →
        parse_json_response s = fallbackRecipe) ∧
      parse_json_response "I can\'t help with that." = fallbackRecipe ∧
      firstIngredientName fallbackRecipe = some "好奇心" := by
  refine ⟨?_, ?_, ?_⟩
  · intro s h
    exact parse_json_response_of_fail s h
  · rfl
  · rfl

set_option maxRecDepth 40000 in
/-- Witness for C6 at a concrete non-JSON input. -/
theorem parse_json_response_fallback_witness :
    jsonDecode (stripFences "not a recipe") = none ∧
      parse_json_response "not a recipe" = fallbackRecipe :=
  ⟨rfl, parse_json_response_fallback.1 "not a recipe" rfl⟩

end RecipeProc
